import Mathlib

/-!
Verification of the SoLoad dynamic loader core (AArch64 ELF64 loader).

Shallow embedding of the loader's pure logic:
* `src/include/sleb128.hpp` — SLEB128/ULEB128 decoding over a byte cursor;
* `src/src/elf_image.cpp` — GNU-hash, ELF-hash and linear symbol lookup;
* `src/src/tls.cpp` — TLS module registry and address service;
* `src/src/linker.cpp` — symbol scan over loaded images, symbol cache,
  relocation dispatch, RELR processing, and teardown (`destroy`/`abandon`).

Machine words are `Nat` values reduced `% 2^64` (or `% 2^32` for 32-bit
hash arithmetic) exactly where the C code's unsigned arithmetic wraps.
Strings are byte lists (`List Nat`), matching the C `const char*` data.
External collaborators (host `dlsym`, IFUNC resolvers, `posix_memalign`,
heap placement) are oracle parameters.
-/

namespace SoLoad

/-- 2^64, the modulus of the AArch64 machine word. -/
def M64 : Nat := 2 ^ 64

/-- Wrapping 64-bit subtraction, as C unsigned `x - y` on 64-bit values. -/
def sub64 (x y : Nat) : Nat := (x % M64 + M64 - y % M64) % M64

/-- Pointer-typed value of an optional address; `none` is the null pointer. -/
def ptrVal : Option Nat → Nat
  | none => 0
  | some a => a

/-- Single-cell store into a byte-addressed 64-bit-word memory. -/
def memUpd (mem : Nat → Nat) (a v : Nat) : Nat → Nat :=
  fun x => if x = a then v else mem x

/-! ## SLEB128 decoder (`src/include/sleb128.hpp`)

The byte cursor `[current_, end_)` is the remaining byte list; reading past
the end is the `none` case of the shared accumulation loop. -/

/-- Shared accumulation loop of `Sleb128Decoder::decode` and
`decodeUnsigned`: consume bytes while the `0x80` continuation bit is set,
OR-ing `(byte & 0x7F) << shift` into a 64-bit accumulator.  Returns the
accumulator, the final shift, the last byte and the remaining bytes, or
`none` when the cursor would pass the end of the span. -/
def slebLoop : List Nat → Nat → Nat → Option (Nat × Nat × Nat × List Nat)
  | [], _, _ => none
  | b :: rest, value, shift =>
    let value := (value ||| ((b &&& 0x7F) <<< shift)) % M64
    let shift := shift + 7
    if b &&& 0x80 ≠ 0 then slebLoop rest value shift
    else some (value, shift, b, rest)

/-- Two's-complement reading of a 64-bit pattern, as `int64_t`. -/
def toInt64 (x : Nat) : Int :=
  if x % M64 < 2 ^ 63 then ((x % M64 : Nat) : Int) else ((x % M64 : Nat) : Int) - (M64 : Int)

/-- `Sleb128Decoder::decode`: signed LEB128.  After the loop, the result is
sign-extended (`value |= -(1 << shift)`, a 64-bit pattern `2^64 - 2^shift`)
when the final shift is below 64 and the last byte's `0x40` bit is set.
Reading past the end yields 0 with the cursor at the end. -/
def Sleb128Decoder.decode (bytes : List Nat) : Int × List Nat :=
  match slebLoop bytes 0 0 with
  | none => (0, [])
  | some (value, shift, b, rest) =>
    let pattern := if shift < 64 ∧ b &&& 0x40 ≠ 0
      then (value ||| (M64 - (1 <<< shift))) % M64
      else value
    (toInt64 pattern, rest)

/-- `Sleb128Decoder::decodeUnsigned`: unsigned LEB128, same loop without
sign extension. -/
def Sleb128Decoder.decodeUnsigned (bytes : List Nat) : Nat × List Nat :=
  match slebLoop bytes 0 0 with
  | none => (0, [])
  | some (value, _, _, rest) => (value, rest)

/-- Little-endian 7-bit combination of a byte list:
`Σ (bᵢ &&& 0x7F) · 128^i`.  Reference value for the decoded magnitude. -/
def leb7Sum : List Nat → Nat
  | [] => 0
  | b :: rest => (b &&& 0x7F) + 128 * leb7Sum rest

/-! ## RELR relocation processing (`Linker::processRelocations`, RELR part) -/

/-- Inner bitmap loop of the RELR case:
`for (bit = 0; bitmap && bit < 63; bit++, bitmap >>= 1) if (bitmap & 1) *p += load_bias`
where `p = load_bias + base_offset + bit*8`. -/
def relrBitmap (load_bias base : Nat) (bitmap bit : Nat) (mem : Nat → Nat) : Nat → Nat :=
  if bitmap = 0 ∨ 63 ≤ bit then mem
  else
    let mem1 := if bitmap % 2 = 1 then
        let t := (load_bias + base + bit * 8) % M64
        memUpd mem t ((mem t + load_bias) % M64)
      else mem
    relrBitmap load_bias base (bitmap >>> 1) (bit + 1) mem1
termination_by 63 - bit
decreasing_by omega

/-- The RELR entry loop.  An even entry is an address: the word at
`load_bias + entry` gets `load_bias` added and the base offset becomes
`entry + 8`.  An odd entry is a bitmap over the next 63 words from the
base offset, which then advances by `63 * 8`. -/
def relrApply (load_bias : Nat) : List Nat → (Nat → Nat) → Nat → ((Nat → Nat) × Nat)
  | [], mem, base => (mem, base)
  | entry :: rest, mem, base =>
    if entry % 2 = 0 then
      let t := (load_bias + entry) % M64
      relrApply load_bias rest (memUpd mem t ((mem t + load_bias) % M64)) ((entry + 8) % M64)
    else
      relrApply load_bias rest (relrBitmap load_bias base (entry >>> 1) 0 mem) ((base + 63 * 8) % M64)

/-! ## ELF image data model and symbol lookup (`src/src/elf_image.cpp`) -/

/-- One `Elf64_Sym` entry. -/
structure ElfSymEntry where
  st_name : Nat := 0
  st_info : Nat := 0
  st_shndx : Nat := 0
  st_value : Nat := 0
  st_size : Nat := 0
deriving Repr, DecidableEq, Inhabited

/-- `ELF64_ST_TYPE`. -/
def elf_st_type (info : Nat) : Nat := info &&& 0xf

/-- `ELF64_ST_BIND`. -/
def elf_st_bind (info : Nat) : Nat := info >>> 4

/-- Parsed `SHT_GNU_HASH` section (`gnu_*_` fields of `ElfImage`). -/
structure GnuHashTab where
  nbucket : Nat := 0
  symndx : Nat := 0
  bloom_size : Nat := 0
  shift2 : Nat := 0
  bloom : Nat → Nat := fun _ => 0
  bucket : Nat → Nat := fun _ => 0
  chain : Nat → Nat := fun _ => 0

/-- Parsed `SHT_HASH` section (`nbucket_`, `bucket_`, `chain_`). -/
structure ElfHashTab where
  nbucket : Nat := 0
  bucket : Nat → Nat := fun _ => 0
  chain : Nat → Nat := fun _ => 0

/-- Parsed `.symtab` with its linked string table. -/
structure SymtabSec where
  syms : List ElfSymEntry := []
  strtab : Nat → List Nat := fun _ => []

/-- `PT_TLS` program header fields used by the TLS manager. -/
structure TlsSeg where
  p_vaddr : Nat := 0
  p_memsz : Nat := 0
  p_filesz : Nat := 0
  p_align : Nat := 0
deriving Repr, DecidableEq, Inhabited

/-- A parsed `ElfImage`.  `base = 0` models a null `base_` pointer; absent
optional members model null section pointers.  `dynsym` carries the entries
with `dynsym_count` as its length; string tables map a byte offset to the
NUL-terminated byte string starting there.  `ifunc` is the oracle for
calling an `STT_GNU_IFUNC` resolver found at a given address. -/
structure ElfImg where
  imgId : Nat := 0
  base : Nat := 0
  bias : Nat := 0
  dynsym : Option (List ElfSymEntry) := none
  dynstr : Option (Nat → List Nat) := none
  gnu : Option GnuHashTab := none
  hashTab : Option ElfHashTab := none
  symtab : Option SymtabSec := none
  tlsSeg : Option TlsSeg := none
  tlsModId : Nat := 0
  ifunc : Nat → Nat := fun _ => 0

instance : Inhabited ElfImg := ⟨{}⟩

/-- `gnuHash`: `h = 5381; h = h*33 + c` over the name bytes, in `uint32_t`. -/
def gnuHashBytes (name : List Nat) : Nat :=
  name.foldl (fun h c => ((h <<< 5) + h + c) % 2 ^ 32) 5381

/-- One step of `elfHash`, in `uint32_t` arithmetic:
`h = (h<<4)+c; g = h & 0xf0000000; if (g) h ^= g>>24; h &= ~g`. -/
def elfHashStep (h c : Nat) : Nat :=
  let h1 := ((h <<< 4) + c) % 2 ^ 32
  let g := h1 &&& 0xf0000000
  let h2 := if g ≠ 0 then h1 ^^^ (g >>> 24) else h1
  h2 &&& ((2 ^ 32 - 1) ^^^ g)

/-- `elfHash` over the name bytes. -/
def elfHashBytes (name : List Nat) : Nat :=
  name.foldl elfHashStep 0

/-- Chain walk of `ElfImage::gnuHashLookup`: starting at `sym_idx`, match
when the chain word agrees with the hash on the upper 31 bits, the name
matches and the symbol is defined; stop at a chain word with the low bit
set or past the dynsym count.  The loop strictly increases `sym_idx`
towards `dynsym_count`; the structural fuel `count + 1 - sym_idx`
supplied by the caller makes the recursion mirror that bound exactly. -/
def gnuWalk (t : GnuHashTab) (syms : List ElfSymEntry) (strtab : Nat → List Nat)
    (name : List Nat) (hash : Nat) : Nat → Nat → Option (Nat × Nat × Nat)
  | _, 0 => none
  | sym_idx, fuel + 1 =>
    if syms.length ≤ sym_idx then none
    else
      let chain_val := t.chain (sym_idx - t.symndx)
      let sym := syms.getD sym_idx {}
      if (chain_val ^^^ hash) >>> 1 = 0 ∧ name = strtab sym.st_name ∧ sym.st_shndx ≠ 0 then
        some (sym.st_value, elf_st_type sym.st_info, elf_st_bind sym.st_info)
      else if chain_val &&& 1 ≠ 0 then none
      else gnuWalk t syms strtab name hash (sym_idx + 1) fuel

/-- `ElfImage::gnuHashLookup` (returns `(st_value, type, bind)`): null-table
guards, Bloom filter test with 64-bit words, bucket start, chain walk. -/
def gnuHashLookup (img : ElfImg) (name : List Nat) (hash : Nat) : Option (Nat × Nat × Nat) :=
  match img.gnu, img.dynsym, img.dynstr with
  | some t, some syms, some strtab =>
    if t.nbucket = 0 then none
    else
      let bloom_idx := (hash / 64) % t.bloom_size
      let bloom_word := t.bloom bloom_idx
      let mask := (1 <<< (hash % 64)) ||| (1 <<< ((hash >>> t.shift2) % 64))
      if bloom_word &&& mask ≠ mask then none
      else
        let sym_idx := t.bucket (hash % t.nbucket)
        if sym_idx < t.symndx then none
        else gnuWalk t syms strtab name hash sym_idx (syms.length + 1 - sym_idx)
  | _, _, _ => none

/-- Fuel-indexed chain walk of `ElfImage::elfHashLookup`
(`for (n = bucket[h % nbucket]; n != STN_UNDEF; n = chain[n])`).  The C
loop has no termination guarantee on corrupt tables; `fuel` bounds the
walk, `none` on exhaustion. -/
def elfWalk (t : ElfHashTab) (syms : List ElfSymEntry) (strtab : Nat → List Nat)
    (name : List Nat) : Nat → Nat → Option (Nat × Nat × Nat)
  | 0, _ => none
  | fuel + 1, n =>
    if n = 0 then none
    else
      let sym := syms.getD n {}
      if name = strtab sym.st_name ∧ sym.st_shndx ≠ 0 then
        some (sym.st_value, elf_st_type sym.st_info, elf_st_bind sym.st_info)
      else elfWalk t syms strtab name fuel (t.chain n)

/-- `ElfImage::elfHashLookup`. -/
def elfHashLookup (img : ElfImg) (name : List Nat) (hash : Nat) (fuel : Nat) :
    Option (Nat × Nat × Nat) :=
  match img.hashTab, img.dynsym, img.dynstr with
  | some t, some syms, some strtab =>
    if t.nbucket = 0 then none
    else elfWalk t syms strtab name fuel (t.bucket (hash % t.nbucket))
  | _, _, _ => none

/-- `ElfImage::linearLookup`: scan `.symtab` for the first entry of type
`STT_FUNC`/`STT_OBJECT` with nonzero size, a defined section index and a
matching name. -/
def linearLookup (img : ElfImg) (name : List Nat) : Option (Nat × Nat × Nat) :=
  match img.symtab with
  | some s =>
    if s.syms.length = 0 then none
    else s.syms.findSome? fun sym =>
      let st := elf_st_type sym.st_info
      if (st = 2 ∨ st = 1) ∧ 0 < sym.st_size ∧ sym.st_shndx ≠ 0 ∧ name = s.strtab sym.st_name
      then some (sym.st_value, st, elf_st_bind sym.st_info) else none
  | none => none

/-- `ElfImage::findSymbolOffset`: GNU hash, then ELF hash, then linear. -/
def findSymbolOffset (img : ElfImg) (name : List Nat) (fuel : Nat) : Option (Nat × Nat × Nat) :=
  match gnuHashLookup img name (gnuHashBytes name) with
  | some r => some r
  | none =>
    match elfHashLookup img name (elfHashBytes name) fuel with
    | some r => some r
    | none => linearLookup img name

/-- `ElfImage::findSymbolAddress` (returns `(address, bind)`): offset
lookup, null-base guard, `base + offset - bias`, IFUNC resolver call. -/
def findSymbolAddress (img : ElfImg) (name : List Nat) (fuel : Nat) : Option (Nat × Nat) :=
  match findSymbolOffset img name fuel with
  | none => none
  | some (off, ty, bd) =>
    if img.base = 0 then none
    else
      let addr := sub64 (img.base + off) img.bias
      if ty = 10 then some (img.ifunc addr, bd) else some (addr, bd)

/-! ## TLS manager (`src/src/tls.cpp`) -/

/-- `MAX_TLS_MODULES`. -/
def MAX_TLS_MODULES : Nat := 128

/-- One `TlsModule` slot; `owner` holds the owning image's identity
(`none` models the null pointer). -/
structure TlsModule where
  module_id : Nat := 0
  align : Nat := 1
  memsz : Nat := 0
  filesz : Nat := 0
  offset : Nat := 0
  init_image : Nat := 0
  owner : Option Nat := none
deriving Repr, DecidableEq, Inhabited

/-- A heap `TlsIndex` record `{module, offset}`. -/
structure TlsIndexVal where
  module : Nat := 0
  offset : Nat := 0
deriving Repr, DecidableEq, Inhabited

/-- `TlsManager` registry state. -/
structure TlsState where
  modules : Nat → TlsModule := fun _ => {}
  generation : Nat := 0
  static_size : Nat := 0
  static_align_max : Nat := 1

/-- `(x + a - 1) & ~(a - 1)` in `size_t` arithmetic (`~(a-1) = 2^64 - a`
for `a ≥ 1`), the alignment step of `TlsManager::registerSegment`. -/
def alignUpMask (s a : Nat) : Nat := ((s + a - 1) % M64) &&& (M64 - a)

/-- `TlsManager::registerSegment`.  No-op success without a `PT_TLS`;
otherwise take the lowest free slot (`module_id = 0`) among `1..127`,
fill it, align up `static_size_`, assign the offset, grow the size, bump
the maximal alignment, and record the module id on the image. -/
def registerSegment (st : TlsState) (img : ElfImg) : TlsState × ElfImg × Bool :=
  match img.tlsSeg with
  | none => (st, img, true)
  | some seg =>
    match (List.range' 1 127).find? (fun i => (st.modules i).module_id == 0) with
    | none => (st, img, false)
    | some mod_id =>
      let a := if seg.p_align ≠ 0 then seg.p_align else 1
      let aligned := alignUpMask st.static_size a
      let m : TlsModule :=
        { module_id := mod_id, align := a, memsz := seg.p_memsz, filesz := seg.p_filesz,
          offset := aligned, init_image := sub64 (img.base + seg.p_vaddr) img.bias,
          owner := some img.imgId }
      let st1 : TlsState :=
        { st with
          modules := fun j => if j = mod_id then m else st.modules j,
          static_size := (aligned + seg.p_memsz) % M64,
          static_align_max := if st.static_align_max < a then a else st.static_align_max }
      (st1, { img with tlsModId := mod_id }, true)

/-- `TlsManager::unregisterSegment`: clear the first slot among `1..127`
whose owner is the given image; sizes and the other slots are untouched. -/
def unregisterSegment (st : TlsState) (imgId : Nat) : TlsState :=
  match (List.range' 1 127).find? (fun i => (st.modules i).owner == some imgId) with
  | none => st
  | some i => { st with modules := fun j => if j = i then {} else st.modules j }

/-- Per-thread TLS state: the pthread-key slot holding the block base. -/
structure TlsThread where
  block : Option Nat := none
deriving Repr, DecidableEq, Inhabited

/-- `TlsManager::getBlockForThread` with `alloc` as the
`allocateBlock`/`posix_memalign` oracle (`none` = allocation failure). -/
def getBlockForThread (th : TlsThread) (alloc : Option Nat) : Option Nat × TlsThread :=
  match th.block with
  | some b => (some b, th)
  | none =>
    match alloc with
    | some b => (some b, { block := some b })
    | none => (none, th)

/-- `TlsManager::getAddress`.  Null index returns the block base; otherwise
validate the module id (nonzero, below `MAX_TLS_MODULES`, slot assigned)
and the bound `module.offset + ti->offset < static_size_`, returning
`block + offset` on success and null otherwise. -/
def TlsManager.getAddress (st : TlsState) (th : TlsThread) (alloc : Option Nat)
    (ti : Option TlsIndexVal) : Option Nat × TlsThread :=
  match getBlockForThread th alloc with
  | (none, th1) => (none, th1)
  | (some block, th1) =>
    match ti with
    | none => (some block, th1)
    | some t =>
      if t.module = 0 ∨ MAX_TLS_MODULES ≤ t.module then (none, th1)
      else if (st.modules t.module).module_id = 0 then (none, th1)
      else
        let offset := ((st.modules t.module).offset + t.offset) % M64
        if st.static_size ≤ offset then (none, th1)
        else (some ((block + offset) % M64), th1)

/-- `__tls_get_addr`. -/
def tls_get_addr (st : TlsState) (th : TlsThread) (alloc : Option Nat)
    (ti : TlsIndexVal) : Option Nat × TlsThread :=
  TlsManager.getAddress st th alloc (some ti)

/-- The TLSDESC resolver `dynamic_tls_resolver` (`src/src/linker.cpp`):
`getAddress(ti) - getAddress(nullptr)` as a wrapping 64-bit difference. -/
def dynamic_tls_resolver (st : TlsState) (th : TlsThread) (alloc : Option Nat)
    (ti : TlsIndexVal) : Nat :=
  let r1 := TlsManager.getAddress st th alloc (some ti)
  let r2 := TlsManager.getAddress st r1.2 alloc none
  sub64 (ptrVal r1.1) (ptrVal r2.1)

/-- A register/unregister call in a `TlsManager` call sequence. -/
inductive TlsOp where
  | reg (img : ElfImg)
  | unreg (imgId : Nat)

/-- Apply one `TlsOp` to the registry state. -/
def applyTlsOp (st : TlsState) : TlsOp → TlsState
  | .reg img => (registerSegment st img).1
  | .unreg imgId => unregisterSegment st imgId

/-- Apply a call sequence in order. -/
def applyTlsOps (st : TlsState) (ops : List TlsOp) : TlsState :=
  ops.foldl applyTlsOp st

/-- A registration does not overflow `size_t` in the current state: the
alignment sum and the grown static size stay below `2^64` (the regime the
code's `size_t` arithmetic assumes). -/
def regFits (st : TlsState) (img : ElfImg) : Bool :=
  match img.tlsSeg with
  | none => true
  | some seg =>
    let a := if seg.p_align ≠ 0 then seg.p_align else 1
    decide (st.static_size + a - 1 < M64) && decide (alignUpMask st.static_size a + seg.p_memsz < M64)

/-- Every registration in the call sequence fits (no `size_t` overflow). -/
def tlsOpsOk (st : TlsState) : List TlsOp → Bool
  | [] => true
  | op :: ops =>
    (match op with
     | .reg img => regFits st img
     | .unreg _ => true) && tlsOpsOk (applyTlsOp st op) ops

/-! ## Linker symbol resolution (`Linker::findSymbol`, `findSymbolCached`) -/

/-- Identity of the image resolving a symbol: the main image or the `i`-th
dependency (`SymbolLookup::image`; `none` below models the null pointer of
a host-resolved symbol). -/
inductive ImgRef where
  | main
  | dep (i : Nat)
deriving Repr, DecidableEq

/-- `SymbolLookup`. -/
structure SymbolLookup where
  address : Nat := 0
  image : Option ImgRef := none
  bind : Nat := 0
  ty : Nat := 0
deriving Repr, DecidableEq, Inhabited

/-- `SymbolLookup::valid`: nonnull address. -/
def SymbolLookup.valid (s : SymbolLookup) : Bool := s.address != 0

/-- `SymbolLookup::isWeak`: bind is `STB_WEAK` (2). -/
def SymbolLookup.isWeak (s : SymbolLookup) : Bool := s.bind == 2

/-- `LoadedDep` (the fields the symbol scan and teardown read). -/
structure LoadedDep where
  image : Option ElfImg := none
  is_manual_load : Bool := false
  map_base : Nat := 0
  map_size : Nat := 0

/-- The linker's loaded images: optional main image, dependencies in load
order. -/
structure LinkerImages where
  main : Option ElfImg := none
  deps : List LoadedDep := []

/-- The scan order of `Linker::findSymbol`: main image first, then each
dependency in load order, skipping null dependency images. -/
def scanList (lst : LinkerImages) : List (ImgRef × ElfImg) :=
  (match lst.main with
   | some m => [(ImgRef.main, m)]
   | none => []) ++
  lst.deps.enum.filterMap fun p =>
    match p.2.image with
    | some img => some (ImgRef.dep p.1, img)
    | none => none

/-- The common loop body of `Linker::findSymbol` (the source repeats the
same body for the main image and for each dependency): on a hit, overwrite
`result`; return it at once when the binding is `STB_GLOBAL`; remember the
first valid `STB_WEAK` hit.  `.inl` is the early `return`, `.inr` the
`(result, weak_result)` pair after the loop. -/
def scanImages (fuel : Nat) (name : List Nat) :
    List (ImgRef × ElfImg) → SymbolLookup → SymbolLookup →
    Sum SymbolLookup (SymbolLookup × SymbolLookup)
  | [], r, w => .inr (r, w)
  | (ref, img) :: rest, r, w =>
    match findSymbolAddress img name fuel with
    | none => scanImages fuel name rest r w
    | some (addr, bd) =>
      let r1 : SymbolLookup := { address := addr, image := some ref, bind := bd }
      if bd = 1 then .inl r1
      else
        let w1 := if bd = 2 && !w.valid then r1 else w
        scanImages fuel name rest r1 w1

/-- `Linker::findSymbol`: scan main then dependencies; a surviving strong
`result` wins, else the remembered weak result, else the host
`dlsym(RTLD_DEFAULT, name)` oracle, which binds as `STB_GLOBAL` with a
null image; a null host address yields the invalid lookup. -/
def findSymbol (lst : LinkerImages) (dlsymOracle : List Nat → Nat) (fuel : Nat)
    (name : List Nat) : SymbolLookup :=
  match scanImages fuel name (scanList lst) {} {} with
  | .inl r => r
  | .inr (r, w) =>
    if r.valid && !r.isWeak then r
    else if w.valid then w
    else
      let sys := dlsymOracle name
      if sys ≠ 0 then { address := sys, image := none, bind := 1 } else {}

/-- `SymbolCacheEntry`. -/
structure SymbolCacheEntry where
  address : Nat := 0
  image : Option ImgRef := none
  found : Bool := false
deriving Repr, DecidableEq, Inhabited

/-- The symbol cache, an association list keyed by name. -/
abbrev SymCache : Type := List (List Nat × SymbolCacheEntry)

/-- Map lookup in the symbol cache. -/
def cacheFind (c : SymCache) (name : List Nat) : Option SymbolCacheEntry :=
  (c.find? (fun p => p.1 == name)).map (fun p => p.2)

/-- `symbol_cache_[name] = entry`: overwrite an existing key or append. -/
def cacheStore (c : SymCache) (name : List Nat) (e : SymbolCacheEntry) : SymCache :=
  if (c.find? (fun p => p.1 == name)).isSome then
    c.map (fun p => if p.1 == name then (name, e) else p)
  else c ++ [(name, e)]

/-- `Linker::findSymbolCached`: consult the cache (negative results
included; a cached hit carries no binding), else run `findSymbol` and
store the outcome, caching failures with `found = false`. -/
def findSymbolCached (lst : LinkerImages) (dlsymOracle : List Nat → Nat) (fuel : Nat)
    (cache : SymCache) (name : List Nat) : SymbolLookup × SymCache :=
  match cacheFind cache name with
  | some e => (if e.found then { address := e.address, image := e.image } else {}, cache)
  | none =>
    let r := findSymbol lst dlsymOracle fuel name
    (r, cacheStore cache name { address := r.address, image := r.image, found := r.valid })

/-! ## Per-relocation dispatch (`Linker::processRelocation`) -/

/-- The name bytes of `"dl_iterate_phdr"`. -/
def dlIterName : List Nat := [100, 108, 95, 105, 116, 101, 114, 97, 116, 101, 95, 112, 104, 100, 114]

/-- The name bytes of `"dladdr"`. -/
def dladdrName : List Nat := [100, 108, 97, 100, 100, 114]

/-- Dereference a `SymbolLookup::image` reference inside the linker. -/
def refImg (lst : LinkerImages) : ImgRef → Option ElfImg
  | .main => lst.main
  | .dep i =>
    match lst.deps.get? i with
    | some d => d.image
    | none => none

/-- Environment of the relocation phase: the loaded images, the host
`dlsym` oracle, the walk fuel, the IFUNC-call oracle for `IRELATIVE`, the
`posix_memalign` oracle for TLS block allocation, the heap-placement oracle
for `TlsIndex` records, the two backtrace hook addresses, and the address
of `dynamic_tls_resolver`. -/
structure RelocEnv where
  lst : LinkerImages := {}
  dlsymOracle : List Nat → Nat := fun _ => 0
  fuel : Nat := 0
  ifuncCall : Nat → Nat := fun _ => 0
  alloc : Option Nat := none
  tiAddr : Nat → Nat := fun _ => 0
  dlIterHook : Nat := 0
  dladdrHook : Nat := 0
  resolverAddr : Nat := 0

/-- Mutable state threaded through relocation processing: word memory, the
symbol cache, the calling thread's TLS slot, the TLS registry, and the
linker's list of allocated `TlsIndex` records. -/
structure RelocState where
  mem : Nat → Nat := fun _ => 0
  cache : SymCache := []
  thread : TlsThread := {}
  tls : TlsState := {}
  tlsIndices : List TlsIndexVal := []

/-- `Linker::processRelocation` with `target = load_bias + r_offset`.
AArch64 relocation codes appear literally: `NONE` 0, `COPY` 1024,
`ABS64` 257, `GLOB_DAT` 1025, `JUMP_SLOT` 1026, `RELATIVE` 1027,
`TLS_DTPMOD` 1028, `TLS_DTPREL` 1029, `TLS_TPREL` 1030, `TLSDESC` 1031,
`IRELATIVE` 1032. -/
def processRelocation (env : RelocEnv) (st : RelocState)
    (sym_idx ty offset addend load_bias : Nat)
    (dynsym : List ElfSymEntry) (dynstr : Nat → List Nat) (is_rela : Bool) : RelocState :=
  let t := (load_bias + offset) % M64
  if ty = 0 then st
  else if ty = 1024 then st
  else if ty = 1027 then
    { st with mem := memUpd st.mem t ((load_bias + (if is_rela then addend else st.mem t)) % M64) }
  else if ty = 1032 then
    let resolver := (load_bias + (if is_rela then addend else st.mem t)) % M64
    { st with mem := memUpd st.mem t (env.ifuncCall resolver) }
  else if ty = 1025 ∨ ty = 257 ∨ ty = 1026 ∨ ty = 1028 ∨ ty = 1029 ∨ ty = 1030 ∨ ty = 1031 then
    let sym_name := dynstr (dynsym.getD sym_idx {}).st_name
    let found := findSymbolCached env.lst env.dlsymOracle env.fuel st.cache sym_name
    let sym := found.1
    let st1 := { st with cache := found.2 }
    if !sym.valid then st1
    else if sym_name = dlIterName then { st1 with mem := memUpd st1.mem t env.dlIterHook }
    else if sym_name = dladdrName then { st1 with mem := memUpd st1.mem t env.dladdrHook }
    else if ty = 1025 ∨ ty = 1026 then { st1 with mem := memUpd st1.mem t sym.address }
    else if ty = 257 then
      { st1 with mem := memUpd st1.mem t ((sym.address + (if is_rela then addend else st1.mem t)) % M64) }
    else if ty = 1028 then
      match sym.image with
      | none => { st1 with mem := memUpd st1.mem t 0 }
      | some ref =>
        let img := (refImg env.lst ref).getD {}
        { st1 with mem := memUpd st1.mem t (if img.tlsSeg.isSome then img.tlsModId else 0) }
    else if ty = 1029 then
      { st1 with mem := memUpd st1.mem t (((dynsym.getD sym_idx {}).st_value + addend) % M64) }
    else if ty = 1030 then
      match sym.image with
      | none => { st1 with mem := memUpd st1.mem t 0 }
      | some ref =>
        let img := (refImg env.lst ref).getD {}
        let ti : TlsIndexVal :=
          { module := img.tlsModId, offset := ((dynsym.getD sym_idx {}).st_value + addend) % M64 }
        let r1 := TlsManager.getAddress st1.tls st1.thread env.alloc (some ti)
        match r1.1 with
        | some b =>
          let r2 := TlsManager.getAddress st1.tls r1.2 env.alloc none
          { st1 with mem := memUpd st1.mem t (sub64 b (ptrVal r2.1)), thread := r2.2 }
        | none => { st1 with mem := memUpd st1.mem t 0, thread := r1.2 }
    else
      match sym.image with
      | none => { st1 with mem := memUpd (memUpd st1.mem t 0) ((t + 8) % M64) 0 }
      | some ref =>
        let img := (refImg env.lst ref).getD {}
        let ti : TlsIndexVal :=
          { module := img.tlsModId, offset := ((dynsym.getD sym_idx {}).st_value + addend) % M64 }
        let tiPtr := env.tiAddr st.tlsIndices.length
        { st1 with mem := memUpd (memUpd st1.mem t env.resolverAddr) ((t + 8) % M64) tiPtr,
                   tlsIndices := st1.tlsIndices ++ [ti] }
  else st

/-- One `Elf64_Rela` entry. -/
structure RelaEntry where
  r_offset : Nat := 0
  r_info : Nat := 0
  r_addend : Nat := 0
deriving Repr, DecidableEq, Inhabited

/-- The RELA entry loop of `Linker::processRelocations`:
`ELF64_R_SYM = r_info >> 32`, `ELF64_R_TYPE = r_info & 0xffffffff`. -/
def processRelaList (env : RelocEnv) (load_bias : Nat) (dynsym : List ElfSymEntry)
    (dynstr : Nat → List Nat) (entries : List RelaEntry) (st : RelocState) : RelocState :=
  entries.foldl
    (fun s e => processRelocation env s (e.r_info >>> 32) (e.r_info &&& 0xffffffff)
      e.r_offset e.r_addend load_bias dynsym dynstr true) st

/-- One image's relocation job: load bias, dynsym, dynstr and RELA list. -/
structure RelocJob where
  load_bias : Nat := 0
  dynsym : List ElfSymEntry := []
  dynstr : Nat → List Nat := fun _ => []
  entries : List RelaEntry := []

/-- `Linker::link` at the granularity the relocation claims need: it fails
only when dependency loading fails (`loadDependencies`, abstracted by
`depsOk`); the relocation phase is a fold that cannot fail, and `link`
then returns `true`. -/
def linkResult (depsOk : Bool) (env : RelocEnv) (jobs : List RelocJob)
    (st : RelocState) : Bool × RelocState :=
  if depsOk then
    (true, jobs.foldl (fun s j => processRelaList env j.load_bias j.dynsym j.dynstr j.entries s) st)
  else (false, st)

/-! ## Teardown (`Linker::destroy`, `Linker::abandon`) -/

/-- The per-image data teardown reads: identity and mapped base. -/
structure TImg where
  imgId : Nat := 0
  base : Nat := 0
deriving Repr, DecidableEq, Inhabited

/-- A dependency record as touched by teardown. -/
structure TDep where
  image : Option TImg := none
  is_manual_load : Bool := false
  map_base : Nat := 0
  map_size : Nat := 0
deriving Repr, DecidableEq, Inhabited

/-- Full linker state for teardown, together with the process-level
resources it releases: the mapped regions list and the TLS registry. -/
structure LinkerFull where
  mainImg : Option TImg := none
  deps : List TDep := []
  mainMapSize : Nat := 0
  isLinked : Bool := false
  tlsIndices : List TlsIndexVal := []
  cache : SymCache := []
  tls : TlsState := {}
  mappings : List (Nat × Nat) := []

/-- Observable teardown actions, in order. -/
inductive TdEvent where
  | unregEhFrame (id : Nat)
  | unregLibrary (id : Nat)
  | destructors (id : Nat)
  | freeTlsIndex (ti : TlsIndexVal)
  | munmapEv (base size : Nat)
deriving Repr, DecidableEq

/-- `munmap` of a whole region drops it from the mapped-region list. -/
def munmapRegion (maps : List (Nat × Nat)) (b s : Nat) : List (Nat × Nat) :=
  maps.filter (fun r => !(r.1 == b && r.2 == s))

/-- TLS unregistration common to `destroy` and `abandon`: dependencies in
reverse load order, then the main image. -/
def teardownTls (st : LinkerFull) : TlsState :=
  let tls1 := st.deps.reverse.foldl
    (fun t d =>
      match d.image with
      | some i => unregisterSegment t i.imgId
      | none => t) st.tls
  match st.mainImg with
  | some m => unregisterSegment tls1 m.imgId
  | none => tls1

/-- Backtrace-unregistration and destructor events `destroy` emits for the
main image (`if (main_image_ && is_linked_)`). -/
def destroyMainEv (st : LinkerFull) : List TdEvent :=
  match st.mainImg with
  | some m =>
    if st.isLinked then
      [TdEvent.unregEhFrame m.imgId, TdEvent.unregLibrary m.imgId, TdEvent.destructors m.imgId]
    else []
  | none => []

/-- Per-dependency events of `destroy`, reverse load order, manual loads
with a live image only. -/
def destroyDepsEv (st : LinkerFull) : List TdEvent :=
  (st.deps.reverse.map fun d =>
    match d.image with
    | some i =>
      if d.is_manual_load then
        [TdEvent.unregEhFrame i.imgId, TdEvent.unregLibrary i.imgId,
         TdEvent.destructors i.imgId]
      else []
    | none => []).flatten

/-- Freeing of the `TlsIndex` pool (common to `destroy` and `abandon`). -/
def tiEv (st : LinkerFull) : List TdEvent :=
  st.tlsIndices.map TdEvent.freeTlsIndex

/-- `munmap` events of `destroy` for manual dependencies with a nonzero
mapping size, load order. -/
def destroyUnmapDepsEv (st : LinkerFull) : List TdEvent :=
  (st.deps.map fun d =>
    if d.is_manual_load && decide (0 < d.map_size) then
      [TdEvent.munmapEv d.map_base d.map_size]
    else []).flatten

/-- `munmap` event of `destroy` for the main image's mapping. -/
def destroyUnmapMainEv (st : LinkerFull) : List TdEvent :=
  match st.mainImg with
  | some m =>
    if 0 < st.mainMapSize then [TdEvent.munmapEv m.base st.mainMapSize] else []
  | none => []

/-- Mapped regions remaining after `destroy`'s `munmap` calls. -/
def destroyMaps (st : LinkerFull) : List (Nat × Nat) :=
  let maps1 := st.deps.foldl
    (fun maps d =>
      if d.is_manual_load && decide (0 < d.map_size) then
        munmapRegion maps d.map_base d.map_size
      else maps) st.mappings
  match st.mainImg with
  | some m =>
    if 0 < st.mainMapSize then munmapRegion maps1 m.base st.mainMapSize else maps1
  | none => maps1

/-- `Linker::destroy`: main destructors (when linked), dependency
destructors in reverse load order (manual loads only), free the `TlsIndex`
pool, unregister TLS segments, unmap manual dependencies and the main
image, clear bookkeeping.  The symbol cache is not touched. -/
def Linker.destroy (st : LinkerFull) : LinkerFull × List TdEvent :=
  ({ mainImg := none, deps := [], mainMapSize := 0, isLinked := false,
     tlsIndices := [], cache := st.cache, tls := teardownTls st, mappings := destroyMaps st },
   destroyMainEv st ++ destroyDepsEv st ++ tiEv st ++ destroyUnmapDepsEv st ++
     destroyUnmapMainEv st)

/-- Per-dependency backtrace-unregistration events of `abandon`, load
order (the source iterates `deps_` forward here), no destructors. -/
def abandonDepsEv (st : LinkerFull) : List TdEvent :=
  (st.deps.map fun d =>
    match d.image with
    | some i =>
      if d.is_manual_load then
        [TdEvent.unregEhFrame i.imgId, TdEvent.unregLibrary i.imgId]
      else []
    | none => []).flatten

/-- Backtrace-unregistration events of `abandon` for the main image. -/
def abandonMainEv (st : LinkerFull) : List TdEvent :=
  match st.mainImg with
  | some m =>
    if st.isLinked then [TdEvent.unregEhFrame m.imgId, TdEvent.unregLibrary m.imgId]
    else []
  | none => []

/-- `Linker::abandon`: unregister backtrace records (dependencies in load
order, then main), free the `TlsIndex` pool, unregister TLS segments as
`destroy` does, clear bookkeeping.  No destructors run and nothing is
unmapped; the symbol cache is not touched. -/
def Linker.abandon (st : LinkerFull) : LinkerFull × List TdEvent :=
  ({ mainImg := none, deps := [], mainMapSize := 0, isLinked := false,
     tlsIndices := [], cache := st.cache, tls := teardownTls st, mappings := st.mappings },
   abandonDepsEv st ++ abandonMainEv st ++ tiEv st)

/-- Is this a destructor event? -/
def isDtor : TdEvent → Bool
  | .destructors _ => true
  | _ => false

/-- Is this an unmap event? -/
def isMunmap : TdEvent → Bool
  | .munmapEv _ _ => true
  | _ => false

/-- Is this a `TlsIndex`-free event? -/
def isFreeTi : TdEvent → Bool
  | .freeTlsIndex _ => true
  | _ => false

/-- Destructor events of a teardown trace. -/
def dtorEvents (evs : List TdEvent) : List TdEvent := evs.filter isDtor

/-- Unmap events of a teardown trace. -/
def munmapEvents (evs : List TdEvent) : List TdEvent := evs.filter isMunmap

/-- `TlsIndex`-free events of a teardown trace. -/
def freeTiEvents (evs : List TdEvent) : List TdEvent := evs.filter isFreeTi

/-- Walk hypothesis for the classic ELF hash chain: `path` lists the nodes
visited strictly before reaching node `i`, starting at `s`; all are
nonzero and linked by `chain`. -/
def chainHits (t : ElfHashTab) : Nat → List Nat → Nat → Bool
  | s, [], i => s == i && decide (s ≠ 0)
  | s, n :: ns, i => s == n && decide (n ≠ 0) && chainHits t (t.chain n) ns i

/-! ## Concrete example inputs used by witness theorems -/

/-- Example image exporting the one-byte name `"a"` (byte 97) as a global
`STT_FUNC` of size 4 at offset `0x100`, via `.symtab` only
(`st_info = (STB_GLOBAL << 4) | STT_FUNC = 0x12`). -/
def exampleGlobalImg : ElfImg :=
  { imgId := 10, base := 0x1000, bias := 0,
    symtab := some
      { syms := [{ st_name := 0, st_info := 0x12, st_shndx := 1, st_value := 0x100,
                   st_size := 4 }],
        strtab := fun off => if off = 0 then [97] else [] } }

/-- Like `exampleGlobalImg` but a weak definition
(`st_info = (STB_WEAK << 4) | STT_FUNC = 0x22`) at offset `0x200`,
based at `0x2000`. -/
def exampleWeakImg : ElfImg :=
  { imgId := 11, base := 0x2000, bias := 0,
    symtab := some
      { syms := [{ st_name := 0, st_info := 0x22, st_shndx := 1, st_value := 0x200,
                   st_size := 4 }],
        strtab := fun off => if off = 0 then [97] else [] } }

/-- A second weak definition of `"a"` at offset `0x300`, based at
`0x3000`. -/
def exampleWeakImg2 : ElfImg :=
  { imgId := 12, base := 0x3000, bias := 0,
    symtab := some
      { syms := [{ st_name := 0, st_info := 0x22, st_shndx := 1, st_value := 0x300,
                   st_size := 4 }],
        strtab := fun off => if off = 0 then [97] else [] } }

/-- An image defining `"a"` (GNU hash of `"a"` is 177670, so the chain
word `177671` matches with the terminator bit set) as a **defined global
`STT_NOTYPE` symbol of size 0** at `st_value = 4096`, consistently in
`.dynsym` (with GNU and ELF hash tables over it) and in `.symtab`. -/
def exampleHashImg : ElfImg :=
  { imgId := 20, base := 0x1000, bias := 0,
    dynsym := some [{}, { st_name := 1, st_info := 0x10, st_shndx := 1, st_value := 4096,
                          st_size := 0 }],
    dynstr := some (fun off => if off = 1 then [97] else []),
    gnu := some { nbucket := 1, symndx := 1, bloom_size := 1, shift2 := 0,
                  bloom := fun _ => M64 - 1, bucket := fun _ => 1,
                  chain := fun _ => 177671 },
    hashTab := some { nbucket := 1, bucket := fun _ => 1, chain := fun _ => 0 },
    symtab := some { syms := [{ st_name := 1, st_info := 0x10, st_shndx := 1,
                                st_value := 4096, st_size := 0 }],
                     strtab := fun off => if off = 1 then [97] else [] } }

/-- Like `exampleHashImg` but the symbol is a global `STT_FUNC` of size 4
(`st_info = 0x12`), the shape the linear `.symtab` scan accepts. -/
def exampleHashImg2 : ElfImg :=
  { imgId := 21, base := 0x1000, bias := 0,
    dynsym := some [{}, { st_name := 1, st_info := 0x12, st_shndx := 1, st_value := 4096,
                          st_size := 4 }],
    dynstr := some (fun off => if off = 1 then [97] else []),
    gnu := some { nbucket := 1, symndx := 1, bloom_size := 1, shift2 := 0,
                  bloom := fun _ => M64 - 1, bucket := fun _ => 1,
                  chain := fun _ => 177671 },
    hashTab := some { nbucket := 1, bucket := fun _ => 1, chain := fun _ => 0 },
    symtab := some { syms := [{ st_name := 1, st_info := 0x12, st_shndx := 1,
                                st_value := 4096, st_size := 4 }],
                     strtab := fun off => if off = 1 then [97] else [] } }

/-! ## Basic arithmetic lemmas -/

theorem M64_eq : M64 = 18446744073709551616 := by norm_num [M64]

/-- Adding back the subtrahend of a wrapping 64-bit difference recovers
the minuend modulo `2^64`. -/
theorem sub64_add_cancel (a b : Nat) : (sub64 a b + b) % M64 = a % M64 := by
  unfold sub64
  rw [M64_eq]
  omega

/-! ## TLS address service lemmas (C6, C7) -/

/-- `getAddress` threads the thread state produced by
`getBlockForThread` unchanged. -/
theorem getAddress_snd (st : TlsState) (th : TlsThread) (alloc : Option Nat)
    (ti : Option TlsIndexVal) :
    (TlsManager.getAddress st th alloc ti).2 = (getBlockForThread th alloc).2 := by
  unfold TlsManager.getAddress
  rcases hgb : getBlockForThread th alloc with ⟨blk, th1⟩
  cases blk with
  | none => rfl
  | some b =>
    cases ti with
    | none => rfl
    | some t =>
      simp only
      split
      · rfl
      · split
        · rfl
        · split <;> rfl

/-- A null-index `getAddress` returns exactly the thread's block. -/
theorem getAddress_none_eq (st : TlsState) (th : TlsThread) (alloc : Option Nat) :
    (TlsManager.getAddress st th alloc none).1 = (getBlockForThread th alloc).1 := by
  unfold TlsManager.getAddress
  rcases hgb : getBlockForThread th alloc with ⟨blk, th1⟩
  cases blk <;> rfl

/-- `getBlockForThread` is idempotent across its own state update. -/
theorem getBlock_stable (th : TlsThread) (alloc : Option Nat) :
    getBlockForThread (getBlockForThread th alloc).2 alloc = getBlockForThread th alloc := by
  unfold getBlockForThread
  rcases th with ⟨blk⟩
  cases blk <;> cases alloc <;> rfl

/-- Any address produced for a non-null TLS index is below `2^64`. -/
theorem getAddress_some_lt (st : TlsState) (th : TlsThread) (alloc : Option Nat)
    (t : TlsIndexVal) :
    ptrVal (TlsManager.getAddress st th alloc (some t)).1 < M64 := by
  unfold TlsManager.getAddress
  rcases hgb : getBlockForThread th alloc with ⟨blk, th1⟩
  cases blk with
  | none => simp [ptrVal, M64]
  | some b =>
    simp only
    split
    · simp [ptrVal, M64]
    · split
      · simp [ptrVal, M64]
      · split
        · simp [ptrVal, M64]
        · simpa [ptrVal] using Nat.mod_lt _ (by rw [M64_eq]; omega)

/-- C7: for every `TlsIndex`, the TLSDESC resolver's return value plus the
current thread's TLS block base (`getAddress(nullptr)`) equals the address
returned by `__tls_get_addr` for the same index on the same thread. -/
theorem tlsdesc_resolver_plus_base_eq_tls_get_addr (st : TlsState) (th : TlsThread)
    (alloc : Option Nat) (ti : TlsIndexVal) :
    (dynamic_tls_resolver st th alloc ti +
      ptrVal (TlsManager.getAddress st th alloc none).1) % M64
      = ptrVal (tls_get_addr st th alloc ti).1 := by
  unfold dynamic_tls_resolver tls_get_addr
  simp only
  have h2 : (TlsManager.getAddress st
      (TlsManager.getAddress st th alloc (some ti)).2 alloc none).1
      = (TlsManager.getAddress st th alloc none).1 := by
    rw [getAddress_snd, getAddress_none_eq, getAddress_none_eq, getBlock_stable]
  rw [h2]
  rw [sub64_add_cancel]
  exact Nat.mod_eq_of_lt (getAddress_some_lt st th alloc ti)

/-- C6: `getAddress` with a null index returns the thread's TLS block
base; with `{module, offset}` it returns `block + module.offset + offset`
exactly when the module id is nonzero, below the slot limit, assigned, and
`module.offset + offset < static_size`; otherwise it returns null. -/
theorem getAddress_spec (st : TlsState) (th : TlsThread) (alloc : Option Nat) (b : Nat)
    (hb : (getBlockForThread th alloc).1 = some b) (m off : Nat) :
    (TlsManager.getAddress st th alloc none).1 = some b ∧
    (m ≠ 0 ∧ m < MAX_TLS_MODULES ∧ (st.modules m).module_id ≠ 0 ∧
        ((st.modules m).offset + off) % M64 < st.static_size →
      (TlsManager.getAddress st th alloc (some ⟨m, off⟩)).1
        = some ((b + ((st.modules m).offset + off) % M64) % M64)) ∧
    (¬ (m ≠ 0 ∧ m < MAX_TLS_MODULES ∧ (st.modules m).module_id ≠ 0 ∧
        ((st.modules m).offset + off) % M64 < st.static_size) →
      (TlsManager.getAddress st th alloc (some ⟨m, off⟩)).1 = none) := by
  refine ⟨by rw [getAddress_none_eq, hb], ?_, ?_⟩
  · rintro ⟨h1, h2, h3, h4⟩
    unfold TlsManager.getAddress
    rcases hgb : getBlockForThread th alloc with ⟨blk, th1⟩
    rw [hgb] at hb
    cases blk with
    | none => exact absurd hb (by simp)
    | some bb =>
      have hbb : bb = b := by simpa using hb
      subst hbb
      simp only
      rw [if_neg (by omega), if_neg h3, if_neg (by omega)]
  · intro h
    unfold TlsManager.getAddress
    rcases hgb : getBlockForThread th alloc with ⟨blk, th1⟩
    cases blk with
    | none => rfl
    | some bb =>
      simp only
      by_cases c1 : m = 0 ∨ MAX_TLS_MODULES ≤ m
      · rw [if_pos c1]
      · rw [if_neg c1]
        by_cases c2 : (st.modules m).module_id = 0
        · rw [if_pos c2]
        · rw [if_neg c2]
          rw [if_pos (by push_neg at h c1; omega)]

/-! ## Bitwise helper lemmas -/

theorem lor_mod_M64_left (a c : Nat) : ((a % M64) ||| c) % M64 = (a ||| c) % M64 := by
  apply Nat.eq_of_testBit_eq
  intro i
  simp only [M64, Nat.testBit_mod_two_pow, Nat.testBit_lor]
  by_cases h : i < 64 <;> simp [h]

theorem lor_shiftLeft_distrib (a b s : Nat) : (a ||| b) <<< s = (a <<< s) ||| (b <<< s) := by
  apply Nat.eq_of_testBit_eq
  intro i
  simp only [Nat.testBit_shiftLeft, Nat.testBit_lor]
  by_cases h : s ≤ i <;> simp [h]

/-- Combining a 7-bit field with a value shifted 7 further is the shifted
sum. -/
theorem shift_or_seven (x S s : Nat) (hx : x < 128) :
    (x <<< s) ||| (S <<< (s + 7)) = (x + 128 * S) <<< s := by
  have hx7 : x < 2 ^ 7 := by
    rw [show (2 : Nat) ^ 7 = 128 from by norm_num]
    exact hx
  have h1 : x + 128 * S = x ||| (S <<< 7) := by
    rw [Nat.shiftLeft_eq, Nat.mul_comm S (2 ^ 7), Nat.lor_comm,
      ← Nat.mul_add_lt_is_or hx7 S,
      show (2 : Nat) ^ 7 = 128 from by norm_num]
    ring
  rw [h1, lor_shiftLeft_distrib, ← Nat.shiftLeft_add, Nat.add_comm 7 s]

/-- Numbers with disjoint bits add without carries: their sum is their OR. -/
theorem add_eq_or_of_and_eq_zero : ∀ (a b : Nat), a &&& b = 0 → a + b = a ||| b := by
  intro a
  induction a using Nat.binaryRec with
  | z =>
    intro b _
    simp
  | f c n ih =>
    intro b h
    rw [← Nat.bit_decomp b] at h ⊢
    rw [Nat.land_bit] at h
    obtain ⟨hnm, hcd⟩ := Nat.bit_eq_zero_iff.1 h
    rw [Nat.lor_bit, Nat.bit_val, Nat.bit_val, Nat.bit_val]
    have hsum := ih _ hnm
    have hf : (c && b.bodd) = false := hcd
    cases c <;> cases hbb : b.bodd <;> simp [hbb] at hf ⊢ <;> omega

/-- XOR with the all-ones mask is subtraction from it: bitwise complement
below `n` bits. -/
theorem allones_xor : ∀ (n m : Nat), m < 2 ^ n → (2 ^ n - 1) ^^^ m = 2 ^ n - 1 - m := by
  intro n
  induction n with
  | zero =>
    intro m hm
    have : m = 0 := by omega
    subst this
    simp
  | succ n ih =>
    intro m hm
    have h1 : 1 ≤ 2 ^ n := Nat.one_le_two_pow
    have hdm : m / 2 < 2 ^ n := by omega
    have hball : (2 ^ (n + 1) - 1) = Nat.bit true (2 ^ n - 1) := by
      rw [Nat.bit_val]
      simp [Nat.pow_succ]
      omega
    have hbm : m = Nat.bit (decide (m % 2 = 1)) (m / 2) := by
      rw [Nat.bit_val]
      rcases Nat.mod_two_eq_zero_or_one m with h | h <;> simp [h] <;> omega
    rw [hball, hbm, Nat.xor_bit, ih _ hdm, Nat.bit_val, Nat.bit_val]
    rcases Nat.mod_two_eq_zero_or_one m with h | h <;> simp [h, Nat.pow_succ] <;> omega

/-- Splitting a 64-bit value along a mask and its complement. -/
theorem and_compl_add (x m : Nat) (hx : x < 2 ^ 64) (hm : m < 2 ^ 64) :
    (x &&& m) + (x &&& (2 ^ 64 - 1 - m)) = x := by
  rw [← allones_xor 64 m hm]
  have hdisj : (x &&& m) &&& (x &&& ((2 ^ 64 - 1) ^^^ m)) = 0 := by
    apply Nat.eq_of_testBit_eq
    intro i
    simp only [Nat.testBit_and, Nat.testBit_xor, Nat.testBit_two_pow_sub_one, Nat.zero_testBit]
    by_cases hi : i < 64
    · cases hmi : m.testBit i <;> simp [hi, hmi]
    · have : m.testBit i = false := by
        apply Nat.testBit_eq_false_of_lt
        calc m < 2 ^ 64 := hm
          _ ≤ 2 ^ i := Nat.pow_le_pow_right (by norm_num) (by omega)
      simp [hi, this]
  rw [add_eq_or_of_and_eq_zero _ _ hdisj, ← Nat.and_or_distrib_left]
  have hmask : m ||| ((2 ^ 64 - 1) ^^^ m) = 2 ^ 64 - 1 := by
    apply Nat.eq_of_testBit_eq
    intro i
    simp only [Nat.testBit_lor, Nat.testBit_xor, Nat.testBit_two_pow_sub_one]
    by_cases hi : i < 64
    · cases hmi : m.testBit i <;> simp [hi, hmi]
    · have : m.testBit i = false := by
        apply Nat.testBit_eq_false_of_lt
        calc m < 2 ^ 64 := hm
          _ ≤ 2 ^ i := Nat.pow_le_pow_right (by norm_num) (by omega)
      simp [hi, this]
  rw [hmask]
  exact Nat.and_pow_two_sub_one_of_lt_two_pow hx

/-- The `size_t` align-up `(s + a - 1) & ~(a - 1)` never goes below `s`
when the sum does not wrap. -/
theorem alignUpMask_ge (s a : Nat) (ha : 1 ≤ a) (hfit : s + a - 1 < M64) :
    s ≤ alignUpMask s a := by
  have hfit2 : s + a - 1 < 2 ^ 64 := hfit
  have h1 : 1 ≤ 2 ^ 64 := Nat.one_le_two_pow
  unfold alignUpMask
  rw [Nat.mod_eq_of_lt hfit]
  simp only [M64]
  by_cases haM : a = 2 ^ 64
  · have hs0 : s = 0 := by omega
    subst hs0
    simp
  · have haM1 : a - 1 < 2 ^ 64 := by omega
    have hsum := and_compl_add (s + a - 1) (a - 1) hfit2 haM1
    have hrw : 2 ^ 64 - 1 - (a - 1) = 2 ^ 64 - a := by omega
    rw [hrw] at hsum
    have hle : (s + a - 1) &&& (a - 1) ≤ a - 1 := Nat.and_le_right
    omega

/-- A fitting registration never shrinks the static TLS size or the
maximal alignment. -/
theorem registerSegment_mono (st : TlsState) (img : ElfImg) (hreg : regFits st img = true) :
    st.static_size ≤ (registerSegment st img).1.static_size ∧
    st.static_align_max ≤ (registerSegment st img).1.static_align_max := by
  unfold registerSegment
  unfold regFits at hreg
  rcases htls : img.tlsSeg with _ | seg <;> rw [htls] at hreg
  · exact ⟨Nat.le_refl _, Nat.le_refl _⟩
  · rcases hfind : (List.range' 1 127).find? (fun i => (st.modules i).module_id == 0) with _ | i
    · exact ⟨Nat.le_refl _, Nat.le_refl _⟩
    · simp only [Bool.and_eq_true, decide_eq_true_eq] at hreg
      obtain ⟨hfit, hgrow⟩ := hreg
      have ha : 1 ≤ if seg.p_align ≠ 0 then seg.p_align else 1 := by
        split <;> omega
      have hup := alignUpMask_ge st.static_size _ ha hfit
      simp only
      constructor
      · rw [Nat.mod_eq_of_lt hgrow]
        omega
      · split <;> split <;> omega

/-- Unregistration never changes the accumulated sizes. -/
theorem unregisterSegment_sizes (st : TlsState) (imgId : Nat) :
    (unregisterSegment st imgId).static_size = st.static_size ∧
    (unregisterSegment st imgId).static_align_max = st.static_align_max := by
  unfold unregisterSegment
  rcases hfind : (List.range' 1 127).find? (fun i => (st.modules i).owner == some imgId)
    with _ | i <;> simp [hfind]

/-- C10: `unregisterSegment` only clears the matching module slot (whose
id becomes 0, hence reusable) and leaves `static_size`,
`static_align_max` and every other slot unchanged; consequently the
static TLS size and the maximal alignment are monotonically
non-decreasing across any register/unregister call sequence whose
registrations fit in `size_t`, and space of unregistered modules is never
reclaimed. -/
theorem tls_unregister_only_clears_slot :
    (∀ (st : TlsState) (imgId : Nat),
      (unregisterSegment st imgId).static_size = st.static_size ∧
      (unregisterSegment st imgId).static_align_max = st.static_align_max ∧
      ∀ j : Nat, (unregisterSegment st imgId).modules j = st.modules j ∨
        ((st.modules j).owner = some imgId ∧ (unregisterSegment st imgId).modules j = {} ∧
          ((unregisterSegment st imgId).modules j).module_id = 0)) ∧
    (∀ (st : TlsState) (ops : List TlsOp), tlsOpsOk st ops = true →
      st.static_size ≤ (applyTlsOps st ops).static_size ∧
      st.static_align_max ≤ (applyTlsOps st ops).static_align_max) := by
  constructor
  · intro st imgId
    refine ⟨(unregisterSegment_sizes st imgId).1, (unregisterSegment_sizes st imgId).2, ?_⟩
    intro j
    unfold unregisterSegment
    rcases hfind : (List.range' 1 127).find? (fun i => (st.modules i).owner == some imgId)
      with _ | i
    · exact Or.inl rfl
    · simp only
      by_cases hj : j = i
      · subst hj
        have hown := List.find?_some hfind
        simp only [beq_iff_eq] at hown
        exact Or.inr ⟨hown, by simp, by simp⟩
      · exact Or.inl (by simp [hj])
  · intro st ops
    induction ops generalizing st with
    | nil => intro; exact ⟨Nat.le_refl _, Nat.le_refl _⟩
    | cons op ops ih =>
      intro hok
      unfold tlsOpsOk at hok
      rw [Bool.and_eq_true] at hok
      have hstep : st.static_size ≤ (applyTlsOp st op).static_size ∧
          st.static_align_max ≤ (applyTlsOp st op).static_align_max := by
        rcases op with img | imgId
        · exact registerSegment_mono st img hok.1
        · exact ⟨(unregisterSegment_sizes st imgId).1.ge,
            (unregisterSegment_sizes st imgId).2.ge⟩
      have hrest := ih (applyTlsOp st op) hok.2
      unfold applyTlsOps at hrest ⊢
      simp only [List.foldl_cons]
      exact ⟨le_trans hstep.1 hrest.1, le_trans hstep.2 hrest.2⟩

/-- Witness for C10: register a 16-byte/align-8 segment, unregister it,
register a 4-byte/align-4 segment; the static size grows 0 → 16 → 16 → 20
and never shrinks. -/
theorem tls_unregister_only_clears_slot_witness :
    tlsOpsOk {} [TlsOp.reg { imgId := 1, tlsSeg := some ⟨0, 16, 0, 8⟩ },
      TlsOp.unreg 1, TlsOp.reg { imgId := 2, tlsSeg := some ⟨0, 4, 0, 4⟩ }] = true ∧
    (({} : TlsState)).static_size ≤ (applyTlsOps {}
      [TlsOp.reg { imgId := 1, tlsSeg := some ⟨0, 16, 0, 8⟩ },
       TlsOp.unreg 1, TlsOp.reg { imgId := 2, tlsSeg := some ⟨0, 4, 0, 4⟩ }]).static_size ∧
    (applyTlsOps {}
      [TlsOp.reg { imgId := 1, tlsSeg := some ⟨0, 16, 0, 8⟩ },
       TlsOp.unreg 1, TlsOp.reg { imgId := 2, tlsSeg := some ⟨0, 4, 0, 4⟩ }]).static_size
      = 20 := by
  refine ⟨by decide, ?_, by decide⟩
  exact (tls_unregister_only_clears_slot.2 {}
    [TlsOp.reg { imgId := 1, tlsSeg := some ⟨0, 16, 0, 8⟩ },
     TlsOp.unreg 1, TlsOp.reg { imgId := 2, tlsSeg := some ⟨0, 4, 0, 4⟩ }] (by decide)).1

/-! ## SLEB128 lemmas (C9) -/

/-- The little-endian 7-bit combination of `n` bytes fits in `7n` bits. -/
theorem leb7Sum_lt (bs : List Nat) : leb7Sum bs < 2 ^ (7 * bs.length) := by
  induction bs with
  | nil => simp [leb7Sum]
  | cons b rest ih =>
    have hb : b &&& 0x7F ≤ 127 := Nat.and_le_right
    have hpow : 2 ^ (7 * (rest.length + 1)) = 128 * 2 ^ (7 * rest.length) := by
      rw [Nat.mul_add, Nat.pow_add]
      ring
    simp only [leb7Sum, List.length_cons, hpow]
    omega

/-- The accumulation loop runs off the end when every byte has the
continuation bit. -/
theorem slebLoop_none (bs : List Nat) (h : ∀ x ∈ bs, x &&& 0x80 ≠ 0) :
    ∀ v s, slebLoop bs v s = none := by
  induction bs with
  | nil => intro v s; rfl
  | cons x rest ih =>
    intro v s
    simp only [slebLoop]
    rw [if_pos (h x (by simp))]
    exact ih (fun y hy => h y (by simp [hy])) _ _

/-- The accumulation loop consumes exactly the continuation bytes plus the
first terminating byte, and accumulates their little-endian 7-bit
combination shifted into the running value. -/
theorem slebLoop_run (b : Nat) (rest : List Nat) (hb : b &&& 0x80 = 0) :
    ∀ (bs : List Nat) (v s : Nat), (∀ x ∈ bs, x &&& 0x80 ≠ 0) →
      slebLoop (bs ++ b :: rest) v s
        = some ((v ||| leb7Sum (bs ++ [b]) <<< s) % M64, s + 7 * (bs.length + 1), b, rest) := by
  intro bs
  induction bs with
  | nil =>
    intro v s _
    simp only [List.nil_append, slebLoop]
    rw [if_neg (by simp [hb])]
    simp [leb7Sum]
  | cons x xs ih =>
    intro v s hall
    simp only [List.cons_append, slebLoop]
    rw [if_pos (hall x (by simp))]
    simp only [List.append_eq]
    rw [ih _ _ (fun y hy => hall y (by simp [hy]))]
    have hx : x &&& 0x7F < 128 := by
      have : x &&& 0x7F ≤ 127 := Nat.and_le_right
      omega
    have hval : (((v ||| (x &&& 0x7F) <<< s) % M64) ||| leb7Sum (xs ++ [b]) <<< (s + 7)) % M64
        = (v ||| leb7Sum (x :: (xs ++ [b])) <<< s) % M64 := by
      rw [lor_mod_M64_left, Nat.lor_assoc, shift_or_seven _ _ _ hx]
      simp [leb7Sum]
    rw [hval, show s + 7 + 7 * (xs.length + 1) = s + 7 * ((x :: xs).length + 1) from by
      simp only [List.length_cons]; omega]

/-- C9: the signed LEB128 decoder combines bytes 7 bits at a time in
little-endian order, stops at the first byte without the `0x80`
continuation bit (leaving the rest of the span untouched), and
sign-extends exactly when the last byte's `0x40` bit is set (the total
shift `7·(#bytes)` being under 64 when at most 9 bytes are consumed);
the unsigned decoder returns the plain combination; and both decoders
return zero when the cursor would read past the end of the span. -/
theorem sleb128_decode_spec (bs : List Nat) (b : Nat) (rest : List Nat)
    (hall : ∀ x ∈ bs, x &&& 0x80 ≠ 0) (hb : b &&& 0x80 = 0)
    (hlen : bs.length + 1 ≤ 9) :
    Sleb128Decoder.decode (bs ++ b :: rest)
      = ((leb7Sum (bs ++ [b]) : Int) -
          (if b &&& 0x40 ≠ 0 then (2 : Int) ^ (7 * (bs.length + 1)) else 0), rest) ∧
    Sleb128Decoder.decodeUnsigned (bs ++ b :: rest) = (leb7Sum (bs ++ [b]), rest) ∧
    (∀ xs : List Nat, (∀ x ∈ xs, x &&& 0x80 ≠ 0) →
      Sleb128Decoder.decode xs = (0, []) ∧ Sleb128Decoder.decodeUnsigned xs = (0, [])) := by
  have hrun := slebLoop_run b rest hb bs 0 0 hall
  have hWlt : leb7Sum (bs ++ [b]) < 2 ^ (7 * (bs.length + 1)) := by
    have := leb7Sum_lt (bs ++ [b])
    simpa using this
  have h63 : (2 : Nat) ^ 63 = 9223372036854775808 := by norm_num
  have hP63 : 2 ^ (7 * (bs.length + 1)) ≤ 2 ^ 63 :=
    Nat.pow_le_pow_right (by norm_num) (by omega)
  have hWsmall : leb7Sum (bs ++ [b]) < M64 := by
    rw [M64_eq]
    omega
  have hv : (0 ||| leb7Sum (bs ++ [b]) <<< 0) % M64 = leb7Sum (bs ++ [b]) := by
    simp [Nat.mod_eq_of_lt hWsmall]
  have hM : M64 = 18446744073709551616 := M64_eq
  refine ⟨?_, ?_, ?_⟩
  · unfold Sleb128Decoder.decode
    rw [hrun]
    dsimp only
    rw [hv]
    by_cases h40 : b &&& 0x40 ≠ 0
    · rw [if_pos ⟨by omega, h40⟩, if_pos h40]
      have hshift : (1 : Nat) <<< (7 * (bs.length + 1)) = 2 ^ (7 * (bs.length + 1)) := by
        rw [Nat.shiftLeft_eq, one_mul]
      have hone : 1 ≤ 2 ^ (64 - 7 * (bs.length + 1)) := Nat.one_le_two_pow
      have hp : 2 ^ (7 * (bs.length + 1)) * 2 ^ (64 - 7 * (bs.length + 1)) = M64 := by
        rw [hM, ← pow_add, show 7 * (bs.length + 1) + (64 - 7 * (bs.length + 1)) = 64 from by
          omega]
        norm_num
      have hsplit : M64 - 2 ^ (7 * (bs.length + 1))
          = 2 ^ (7 * (bs.length + 1)) * (2 ^ (64 - 7 * (bs.length + 1)) - 1) := by
        rw [Nat.mul_sub_one, hp]
      have hor : leb7Sum (bs ++ [b]) ||| (M64 - 2 ^ (7 * (bs.length + 1)))
          = leb7Sum (bs ++ [b]) + (M64 - 2 ^ (7 * (bs.length + 1))) := by
        rw [hsplit, Nat.lor_comm, ← Nat.mul_add_lt_is_or hWlt]
        exact Nat.add_comm _ _
      have hle : 2 ^ (7 * (bs.length + 1)) ≤ M64 := by omega
      have hlt2 : leb7Sum (bs ++ [b]) + (M64 - 2 ^ (7 * (bs.length + 1))) < M64 := by omega
      have hge : ¬ leb7Sum (bs ++ [b]) + (M64 - 2 ^ (7 * (bs.length + 1))) < 2 ^ 63 := by omega
      rw [Nat.zero_add, hshift, hor]
      unfold toInt64
      rw [Nat.mod_eq_of_lt hlt2, Nat.mod_eq_of_lt hlt2, if_neg hge]
      simp only [Prod.mk.injEq]
      refine ⟨?_, trivial⟩
      have hcast : ((2 : Int) ^ (7 * (bs.length + 1)))
          = ((2 ^ (7 * (bs.length + 1)) : Nat) : Int) := by
        push_cast
        rfl
      rw [hcast]
      omega
    · rw [if_neg (fun hc => h40 hc.2), if_neg h40]
      unfold toInt64
      rw [Nat.mod_eq_of_lt hWsmall]
      rw [if_pos (by omega)]
      simp
  · unfold Sleb128Decoder.decodeUnsigned
    rw [hrun]
    dsimp only
    rw [hv]
  · intro xs hxs
    constructor
    · unfold Sleb128Decoder.decode
      rw [slebLoop_none xs hxs 0 0]
    · unfold Sleb128Decoder.decodeUnsigned
      rw [slebLoop_none xs hxs 0 0]

/-- Witness for C9: `[0xC7, 0x41]` decodes to `8391 - 2^14 = -7993`
(signed, the `0x40` bit of the last byte set) and `8391` (unsigned),
leaving the trailing byte `9` unread; a lone continuation byte decodes to
zero. -/
theorem sleb128_decode_spec_witness :
    Sleb128Decoder.decode [199, 65, 9] = (-7993, [9]) ∧
    Sleb128Decoder.decodeUnsigned [199, 65, 9] = (8391, [9]) ∧
    Sleb128Decoder.decode [128] = (0, []) := by
  have h := sleb128_decode_spec [199] 65 [9] (by decide) (by decide) (by decide)
  refine ⟨?_, ?_, (h.2.2 [128] (by decide)).1⟩
  · have h1 := h.1
    norm_num [leb7Sum] at h1
    exact h1
  · have h2 := h.2.1
    norm_num [leb7Sum] at h2
    exact h2

/-! ## RELR lemmas (C8) -/

/-- Word slots `base + k*8` for `k < 63` are pairwise distinct addresses
even after 64-bit wrapping. -/
theorem relr_addr_inj (x : Nat) {j j' : Nat} (hj : j < 63) (hj' : j' < 63)
    (h : (x + j * 8) % M64 = (x + j' * 8) % M64) : j = j' := by
  rw [M64_eq] at h
  omega

/-- Pointwise effect of the RELR bitmap loop: a word is bumped by the load
bias exactly when some still-live bit of the bitmap selects its slot;
every other word is untouched. -/
theorem relrBitmap_sel (lb base : Nat) :
    ∀ n bit bitmap (mem : Nat → Nat) (a : Nat), 63 - bit ≤ n →
      ((∃ k : Nat, bitmap.testBit k = true ∧ bit + k < 63 ∧
          a = (lb + base + (bit + k) * 8) % M64) →
        relrBitmap lb base bitmap bit mem a = (mem a + lb) % M64) ∧
      ((¬ ∃ k : Nat, bitmap.testBit k = true ∧ bit + k < 63 ∧
          a = (lb + base + (bit + k) * 8) % M64) →
        relrBitmap lb base bitmap bit mem a = mem a) := by
  intro n
  induction n with
  | zero =>
    intro bit bitmap mem a hb
    rw [relrBitmap, if_pos (Or.inr (by omega))]
    constructor
    · rintro ⟨k, _, hk2, _⟩
      omega
    · intro
      rfl
  | succ n ih =>
    intro bit bitmap mem a hb
    by_cases hbit : 63 ≤ bit
    · rw [relrBitmap, if_pos (Or.inr hbit)]
      constructor
      · rintro ⟨k, _, hk2, _⟩
        omega
      · intro
        rfl
    · push_neg at hbit
      by_cases hbm : bitmap = 0
      · rw [relrBitmap, if_pos (Or.inl hbm)]
        subst hbm
        constructor
        · rintro ⟨k, hk1, _, _⟩
          simp at hk1
        · intro
          rfl
      · rw [relrBitmap, if_neg (by push_neg; exact ⟨hbm, by omega⟩)]
        simp only
        have ihh := ih (bit + 1) (bitmap >>> 1)
          (if bitmap % 2 = 1 then
            memUpd mem ((lb + base + bit * 8) % M64)
              ((mem ((lb + base + bit * 8) % M64) + lb) % M64)
           else mem) a (by omega)
        constructor
        · rintro ⟨k, hk1, hk2, hk3⟩
          cases k with
          | zero =>
            have hb0 : bitmap % 2 = 1 := by simpa using hk1
            have ha : a = (lb + base + bit * 8) % M64 := by simpa using hk3
            have hnot : ¬ ∃ k, (bitmap >>> 1).testBit k = true ∧ (bit + 1) + k < 63 ∧
                a = (lb + base + ((bit + 1) + k) * 8) % M64 := by
              rintro ⟨k, _, hlt, heq⟩
              have : bit = bit + 1 + k :=
                relr_addr_inj (lb + base) (by omega) (by omega) (ha ▸ heq)
              omega
            rw [ihh.2 hnot, if_pos hb0, memUpd, if_pos ha, ha]
          | succ k =>
            have hsel : ∃ j, (bitmap >>> 1).testBit j = true ∧ (bit + 1) + j < 63 ∧
                a = (lb + base + ((bit + 1) + j) * 8) % M64 := by
              refine ⟨k, ?_, by omega, ?_⟩
              · rw [Nat.testBit_shiftRight]
                have : 1 + k = k + 1 := by omega
                rw [this]
                exact hk1
              · have : (bit + 1) + k = bit + (k + 1) := by omega
                rw [this]
                exact hk3
            rw [ihh.1 hsel]
            by_cases hb0 : bitmap % 2 = 1
            · rw [if_pos hb0, memUpd]
              have hne : a ≠ (lb + base + bit * 8) % M64 := by
                intro heq
                have : bit + (k + 1) = bit :=
                  relr_addr_inj (lb + base) (by omega) (by omega) (hk3 ▸ heq)
                omega
              rw [if_neg hne]
            · rw [if_neg hb0]
        · intro hno
          have hnot1 : ¬ ∃ j, (bitmap >>> 1).testBit j = true ∧ (bit + 1) + j < 63 ∧
              a = (lb + base + ((bit + 1) + j) * 8) % M64 := by
            rintro ⟨j, h1, h2, h3⟩
            refine hno ⟨j + 1, ?_, by omega, ?_⟩
            · rw [Nat.testBit_shiftRight] at h1
              have : 1 + j = j + 1 := by omega
              rwa [this] at h1
            · have : bit + (j + 1) = (bit + 1) + j := by omega
              rw [this]
              exact h3
          rw [ihh.2 hnot1]
          by_cases hb0 : bitmap % 2 = 1
          · rw [if_pos hb0, memUpd]
            have hne : a ≠ (lb + base + bit * 8) % M64 := by
              intro heq
              exact hno ⟨0, by simpa using hb0, by omega, by simpa using heq⟩
            rw [if_neg hne]
          · rw [if_neg hb0]

/-- C8: semantics of one RELR entry.  An even entry is an address: the
word at `load_bias + entry` gets `load_bias` added and the running base
becomes the word after the entry; an odd entry is a bitmap whose bits
`1..63` select which of the next 63 words (word `k` from the current base
for bit `k+1`) get `load_bias` added, after which the base advances by
exactly `63` words regardless of which bits were set. -/
theorem relr_entry_semantics (lb entry : Nat) (rest : List Nat) (mem : Nat → Nat) (base : Nat) :
    (entry % 2 = 0 →
      relrApply lb (entry :: rest) mem base
        = relrApply lb rest
            (memUpd mem ((lb + entry) % M64) ((mem ((lb + entry) % M64) + lb) % M64))
            ((entry + 8) % M64)) ∧
    (entry % 2 = 1 →
      ∃ mem1,
        relrApply lb (entry :: rest) mem base
          = relrApply lb rest mem1 ((base + 63 * 8) % M64) ∧
        ∀ a : Nat,
          ((∃ k, k < 63 ∧ entry.testBit (k + 1) = true ∧ a = (lb + base + k * 8) % M64) →
            mem1 a = (mem a + lb) % M64) ∧
          ((¬ ∃ k, k < 63 ∧ entry.testBit (k + 1) = true ∧ a = (lb + base + k * 8) % M64) →
            mem1 a = mem a)) := by
  constructor
  · intro he
    simp only [relrApply]
    rw [if_pos he]
  · intro he
    refine ⟨relrBitmap lb base (entry >>> 1) 0 mem, ?_, ?_⟩
    · simp only [relrApply]
      rw [if_neg (by omega)]
    · intro a
      have hsel := relrBitmap_sel lb base 63 0 (entry >>> 1) mem a (by omega)
      constructor
      · rintro ⟨k, hk1, hk2, hk3⟩
        refine hsel.1 ⟨k, ?_, by omega, by simpa using hk3⟩
        rw [Nat.testBit_shiftRight]
        have : 1 + k = k + 1 := by omega
        rw [this]
        exact hk2
      · intro hno
        refine hsel.2 ?_
        rintro ⟨k, h1, h2, h3⟩
        refine hno ⟨k, by omega, ?_, by simpa using h3⟩
        rw [Nat.testBit_shiftRight] at h1
        have : 1 + k = k + 1 := by omega
        rwa [this] at h1

/-- Witness for C8: a concrete even entry (address `16`) and a concrete
odd entry (bitmap selecting words 0 and 2 via bits 1 and 3) behave as the
step theorem states. -/
theorem relr_entry_semantics_witness :
    ((16 : Nat) % 2 = 0 ∧
      relrApply 4096 [16] (fun _ => 7) 0
        = relrApply 4096 []
            (memUpd (fun _ => 7) ((4096 + 16) % M64) ((7 + 4096) % M64)) ((16 + 8) % M64)) ∧
    ((11 : Nat) % 2 = 1 ∧
      ∃ mem1,
        relrApply 4096 [11] (fun _ => 7) 64
          = relrApply 4096 [] mem1 ((64 + 63 * 8) % M64) ∧
        ∀ a : Nat,
          ((∃ k, k < 63 ∧ (11 : Nat).testBit (k + 1) = true ∧ a = (4096 + 64 + k * 8) % M64) →
            mem1 a = (7 + 4096) % M64) ∧
          ((¬ ∃ k, k < 63 ∧ (11 : Nat).testBit (k + 1) = true ∧ a = (4096 + 64 + k * 8) % M64) →
            mem1 a = 7)) := by
  constructor
  · exact ⟨rfl, (relr_entry_semantics 4096 16 [] (fun _ => 7) 0).1 rfl⟩
  · exact ⟨rfl, (relr_entry_semantics 4096 11 [] (fun _ => 7) 64).2 rfl⟩

/-! ## Teardown lemmas (C2, C3) -/

theorem abandonDepsEv_shape (st : LinkerFull) :
    ∀ e ∈ abandonDepsEv st, isDtor e = false ∧ isMunmap e = false ∧ isFreeTi e = false := by
  intro e he
  unfold abandonDepsEv at he
  simp only [List.mem_flatten, List.mem_map] at he
  obtain ⟨xs, ⟨d, _, rfl⟩, he⟩ := he
  rcases hdi : d.image with _ | i <;> rw [hdi] at he
  · simp at he
  · by_cases hm : d.is_manual_load <;> simp [hm] at he
    rcases he with rfl | rfl <;> exact ⟨rfl, rfl, rfl⟩

theorem abandonMainEv_shape (st : LinkerFull) :
    ∀ e ∈ abandonMainEv st, isDtor e = false ∧ isMunmap e = false ∧ isFreeTi e = false := by
  intro e he
  unfold abandonMainEv at he
  rcases hmi : st.mainImg with _ | m <;> rw [hmi] at he
  · simp at he
  · by_cases hl : st.isLinked <;> simp [hl] at he
    rcases he with rfl | rfl <;> exact ⟨rfl, rfl, rfl⟩

theorem tiEv_shape (st : LinkerFull) :
    ∀ e ∈ tiEv st, isDtor e = false ∧ isMunmap e = false ∧ isFreeTi e = true := by
  intro e he
  unfold tiEv at he
  obtain ⟨ti, _, rfl⟩ := List.mem_map.1 he
  exact ⟨rfl, rfl, rfl⟩

theorem destroyMainEv_shape (st : LinkerFull) :
    ∀ e ∈ destroyMainEv st, isMunmap e = false ∧ isFreeTi e = false := by
  intro e he
  unfold destroyMainEv at he
  rcases hmi : st.mainImg with _ | m <;> rw [hmi] at he
  · simp at he
  · by_cases hl : st.isLinked <;> simp [hl] at he
    rcases he with rfl | rfl | rfl <;> exact ⟨rfl, rfl⟩

theorem destroyDepsEv_shape (st : LinkerFull) :
    ∀ e ∈ destroyDepsEv st, isMunmap e = false ∧ isFreeTi e = false := by
  intro e he
  unfold destroyDepsEv at he
  simp only [List.mem_flatten, List.mem_map] at he
  obtain ⟨xs, ⟨d, _, rfl⟩, he⟩ := he
  rcases hdi : d.image with _ | i <;> rw [hdi] at he
  · simp at he
  · by_cases hm : d.is_manual_load <;> simp [hm] at he
    rcases he with rfl | rfl | rfl <;> exact ⟨rfl, rfl⟩

theorem destroyUnmapDepsEv_shape (st : LinkerFull) :
    ∀ e ∈ destroyUnmapDepsEv st, isDtor e = false ∧ isFreeTi e = false := by
  intro e he
  unfold destroyUnmapDepsEv at he
  simp only [List.mem_flatten, List.mem_map] at he
  obtain ⟨xs, ⟨d, _, rfl⟩, he⟩ := he
  by_cases hm : d.is_manual_load && decide (0 < d.map_size) <;> simp [hm] at he
  subst he
  exact ⟨rfl, rfl⟩

theorem destroyUnmapMainEv_shape (st : LinkerFull) :
    ∀ e ∈ destroyUnmapMainEv st, isDtor e = false ∧ isFreeTi e = false := by
  intro e he
  unfold destroyUnmapMainEv at he
  rcases hmi : st.mainImg with _ | m <;> rw [hmi] at he
  · simp at he
  · by_cases hs : 0 < st.mainMapSize <;> simp [hs] at he
    subst he
    exact ⟨rfl, rfl⟩

/-- C2 (amended): `abandon` frees the `TlsIndex` pool and unregisters TLS
segments exactly as `destroy` does and clears the same bookkeeping, but it
invokes no destructors and performs no unmapping — the mapped regions
survive `abandon` unchanged. -/
theorem abandon_skips_dtors_and_unmaps (st : LinkerFull) :
    (Linker.abandon st).1.tlsIndices = [] ∧
    (Linker.destroy st).1.tlsIndices = [] ∧
    (Linker.abandon st).1.tls = (Linker.destroy st).1.tls ∧
    freeTiEvents (Linker.abandon st).2 = freeTiEvents (Linker.destroy st).2 ∧
    dtorEvents (Linker.abandon st).2 = [] ∧
    munmapEvents (Linker.abandon st).2 = [] ∧
    (Linker.abandon st).1.mappings = st.mappings ∧
    (Linker.abandon st).1.mainImg = (Linker.destroy st).1.mainImg ∧
    (Linker.abandon st).1.deps = (Linker.destroy st).1.deps ∧
    (Linker.abandon st).1.isLinked = false ∧
    (Linker.abandon st).1.mainMapSize = 0 ∧
    (Linker.abandon st).1.cache = (Linker.destroy st).1.cache := by
  refine ⟨rfl, rfl, rfl, ?_, ?_, ?_, rfl, rfl, rfl, rfl, rfl, rfl⟩
  · show ((abandonDepsEv st ++ abandonMainEv st ++ tiEv st).filter isFreeTi)
      = ((destroyMainEv st ++ destroyDepsEv st ++ tiEv st ++ destroyUnmapDepsEv st ++
          destroyUnmapMainEv st).filter isFreeTi)
    have h1 : (abandonDepsEv st).filter isFreeTi = [] :=
      List.filter_eq_nil_iff.2 fun e he => by simp [(abandonDepsEv_shape st e he).2.2]
    have h2 : (abandonMainEv st).filter isFreeTi = [] :=
      List.filter_eq_nil_iff.2 fun e he => by simp [(abandonMainEv_shape st e he).2.2]
    have h3 : (destroyMainEv st).filter isFreeTi = [] :=
      List.filter_eq_nil_iff.2 fun e he => by simp [(destroyMainEv_shape st e he).2]
    have h4 : (destroyDepsEv st).filter isFreeTi = [] :=
      List.filter_eq_nil_iff.2 fun e he => by simp [(destroyDepsEv_shape st e he).2]
    have h5 : (destroyUnmapDepsEv st).filter isFreeTi = [] :=
      List.filter_eq_nil_iff.2 fun e he => by simp [(destroyUnmapDepsEv_shape st e he).2]
    have h6 : (destroyUnmapMainEv st).filter isFreeTi = [] :=
      List.filter_eq_nil_iff.2 fun e he => by simp [(destroyUnmapMainEv_shape st e he).2]
    simp [List.filter_append, h1, h2, h3, h4, h5, h6]
  · show ((abandonDepsEv st ++ abandonMainEv st ++ tiEv st).filter isDtor) = []
    simp only [List.filter_append, List.append_eq_nil]
    refine ⟨⟨List.filter_eq_nil_iff.2 (fun e he => by simp [(abandonDepsEv_shape st e he).1]),
      List.filter_eq_nil_iff.2 (fun e he => by simp [(abandonMainEv_shape st e he).1])⟩,
      List.filter_eq_nil_iff.2 (fun e he => by simp [(tiEv_shape st e he).1])⟩
  · show ((abandonDepsEv st ++ abandonMainEv st ++ tiEv st).filter isMunmap) = []
    simp only [List.filter_append, List.append_eq_nil]
    refine ⟨⟨List.filter_eq_nil_iff.2 (fun e he => by simp [(abandonDepsEv_shape st e he).2.1]),
      List.filter_eq_nil_iff.2 (fun e he => by simp [(abandonMainEv_shape st e he).2.1])⟩,
      List.filter_eq_nil_iff.2 (fun e he => by simp [(tiEv_shape st e he).2.1])⟩

/-- C2 (counterexample): on a linked state with one manually mapped
dependency (4 KiB at 131072) and a mapped main image (8 KiB at 65536),
`destroy` unmaps both regions but `abandon` unmaps nothing — refuting the
claim that abandon unmaps just as destroy does. -/
theorem abandon_does_not_unmap_counterexample :
    ((Linker.abandon
        { mainImg := some ⟨1, 65536⟩,
          deps := [{ image := some ⟨2, 131072⟩, is_manual_load := true,
                     map_base := 131072, map_size := 4096 }],
          mainMapSize := 8192, isLinked := true, tlsIndices := [⟨1, 0⟩],
          cache := [], tls := {},
          mappings := [(131072, 4096), (65536, 8192)] }).1.mappings
      = [(131072, 4096), (65536, 8192)]) ∧
    ((Linker.destroy
        { mainImg := some ⟨1, 65536⟩,
          deps := [{ image := some ⟨2, 131072⟩, is_manual_load := true,
                     map_base := 131072, map_size := 4096 }],
          mainMapSize := 8192, isLinked := true, tlsIndices := [⟨1, 0⟩],
          cache := [], tls := {},
          mappings := [(131072, 4096), (65536, 8192)] }).1.mappings
      = []) ∧
    munmapEvents (Linker.abandon
        { mainImg := some ⟨1, 65536⟩,
          deps := [{ image := some ⟨2, 131072⟩, is_manual_load := true,
                     map_base := 131072, map_size := 4096 }],
          mainMapSize := 8192, isLinked := true, tlsIndices := [⟨1, 0⟩],
          cache := [], tls := {},
          mappings := [(131072, 4096), (65536, 8192)] }).2 = [] ∧
    munmapEvents (Linker.destroy
        { mainImg := some ⟨1, 65536⟩,
          deps := [{ image := some ⟨2, 131072⟩, is_manual_load := true,
                     map_base := 131072, map_size := 4096 }],
          mainMapSize := 8192, isLinked := true, tlsIndices := [⟨1, 0⟩],
          cache := [], tls := {},
          mappings := [(131072, 4096), (65536, 8192)] }).2
      = [TdEvent.munmapEv 131072 4096, TdEvent.munmapEv 65536 8192] := by
  refine ⟨rfl, rfl, rfl, rfl⟩

/-- C3: neither `Linker::destroy` nor `Linker::abandon` touches the
process-local symbol cache — `clearSymbolCache` exists but is never
invoked on teardown, so after teardown the cache still holds every entry
(shown also on a concrete state with one cached name). -/
theorem symbol_cache_survives_teardown :
    (∀ st : LinkerFull, (Linker.destroy st).1.cache = st.cache ∧
      (Linker.abandon st).1.cache = st.cache) ∧
    (Linker.destroy
        { cache := [([97], ⟨4096, none, true⟩)] }).1.cache ≠ [] := by
  exact ⟨fun st => ⟨rfl, rfl⟩, by decide⟩

/-- Witness for C6 on a concrete registry: module 1 at offset 0 in a
16-byte static block, thread block at 4096; a null index returns 4096, an
in-range query returns 4104, an out-of-range offset and an unregistered
module id return null. -/
theorem getAddress_spec_witness :
    ((getBlockForThread ⟨some 4096⟩ none).1
        = some 4096) ∧
    (TlsManager.getAddress
        ⟨fun i => if i = 1 then ⟨1, 8, 16, 0, 0, 0, some 7⟩ else {}, 0, 16, 8⟩
        ⟨some 4096⟩ none none).1 = some 4096 ∧
    (TlsManager.getAddress
        ⟨fun i => if i = 1 then ⟨1, 8, 16, 0, 0, 0, some 7⟩ else {}, 0, 16, 8⟩
        ⟨some 4096⟩ none (some ⟨1, 8⟩)).1 = some 4104 ∧
    (TlsManager.getAddress
        ⟨fun i => if i = 1 then ⟨1, 8, 16, 0, 0, 0, some 7⟩ else {}, 0, 16, 8⟩
        ⟨some 4096⟩ none (some ⟨1, 16⟩)).1 = none ∧
    (TlsManager.getAddress
        ⟨fun i => if i = 1 then ⟨1, 8, 16, 0, 0, 0, some 7⟩ else {}, 0, 16, 8⟩
        ⟨some 4096⟩ none (some ⟨2, 0⟩)).1 = none := by
  have hb : (getBlockForThread ⟨some 4096⟩ none).1 = some 4096 := rfl
  have h1 := getAddress_spec
    ⟨fun i => if i = 1 then ⟨1, 8, 16, 0, 0, 0, some 7⟩ else {}, 0, 16, 8⟩
    ⟨some 4096⟩ none 4096 hb 1 8
  have h2 := getAddress_spec
    ⟨fun i => if i = 1 then ⟨1, 8, 16, 0, 0, 0, some 7⟩ else {}, 0, 16, 8⟩
    ⟨some 4096⟩ none 4096 hb 1 16
  have h3 := getAddress_spec
    ⟨fun i => if i = 1 then ⟨1, 8, 16, 0, 0, 0, some 7⟩ else {}, 0, 16, 8⟩
    ⟨some 4096⟩ none 4096 hb 2 0
  refine ⟨hb, h1.1, ?_, ?_, ?_⟩
  · have := h1.2.1 (by refine ⟨by norm_num, by norm_num [MAX_TLS_MODULES], ?_, ?_⟩ <;>
      norm_num [M64_eq])
    simpa [M64_eq] using this
  · exact h2.2.2 (by intro h; exact absurd h.2.2.2 (by norm_num [M64_eq]))
  · exact h3.2.2 (by intro h; exact absurd h.2.2.1 (by norm_num [M64_eq]))

/-! ## Hash lookup lemmas (C4) -/

/-- Completeness of the GNU-hash chain walk: if index `i` holds a defined
symbol with the looked-up name and a hash-compatible chain word, no chain
word before `i` has the terminator bit, and the name determines the
defined value `v`, then the walk from any start at or before `i` finds
value `v`. -/
theorem gnuWalk_complete (t : GnuHashTab) (syms : List ElfSymEntry) (strtab : Nat → List Nat)
    (name : List Nat) (hash : Nat) (i v : Nat)
    (hilen : i < syms.length)
    (hhash : (t.chain (i - t.symndx) ^^^ hash) >>> 1 = 0)
    (hname : name = strtab (syms.getD i {}).st_name)
    (hdef : (syms.getD i {}).st_shndx ≠ 0)
    (huniq : ∀ k, name = strtab (syms.getD k {}).st_name →
      (syms.getD k {}).st_shndx ≠ 0 → (syms.getD k {}).st_value = v) :
    ∀ fuel s, s ≤ i → fuel = syms.length + 1 - s →
      (∀ k, s ≤ k → k < i → t.chain (k - t.symndx) &&& 1 = 0) →
      (gnuWalk t syms strtab name hash s fuel).map (fun r => r.1) = some v := by
  intro fuel
  induction fuel with
  | zero =>
    intro s hs hf _
    omega
  | succ fuel ih =>
    intro s hs hf hchain
    simp only [gnuWalk]
    rw [if_neg (by omega)]
    by_cases hm : (t.chain (s - t.symndx) ^^^ hash) >>> 1 = 0 ∧
        name = strtab (syms.getD s {}).st_name ∧ (syms.getD s {}).st_shndx ≠ 0
    · rw [if_pos hm]
      exact congrArg some (huniq s hm.2.1 hm.2.2)
    · have hsi : s ≠ i := by
        intro h
        subst h
        exact hm ⟨hhash, hname, hdef⟩
      have hlt : s < i := by omega
      rw [if_neg hm,
        if_neg (not_not_intro (hchain s (Nat.le_refl s) hlt))]
      exact ih (s + 1) (by omega) (by omega) (fun k hk1 hk2 => hchain k (by omega) hk2)

/-- Completeness of the classic ELF hash chain walk along an explicit
chain path ending at a defined symbol with the looked-up name. -/
theorem elfWalk_complete (t : ElfHashTab) (syms : List ElfSymEntry) (strtab : Nat → List Nat)
    (name : List Nat) (v : Nat)
    (huniq : ∀ k, name = strtab (syms.getD k {}).st_name →
      (syms.getD k {}).st_shndx ≠ 0 → (syms.getD k {}).st_value = v) :
    ∀ (path : List Nat) (s fuel i : Nat), chainHits t s path i = true →
      path.length < fuel →
      name = strtab (syms.getD i {}).st_name →
      (syms.getD i {}).st_shndx ≠ 0 →
      (elfWalk t syms strtab name fuel s).map (fun r => r.1) = some v := by
  intro path
  induction path with
  | nil =>
    intro s fuel i hch hf hn hd
    simp only [chainHits, Bool.and_eq_true, beq_iff_eq, decide_eq_true_eq] at hch
    obtain ⟨rfl, hs0⟩ := hch
    match fuel with
    | 0 => omega
    | fuel + 1 =>
      simp only [elfWalk]
      rw [if_neg hs0]
      rw [if_pos ⟨hn, hd⟩]
      exact congrArg some (huniq s hn hd)
  | cons n ns ih =>
    intro s fuel i hch hf hn hd
    simp only [chainHits, Bool.and_eq_true, beq_iff_eq, decide_eq_true_eq] at hch
    obtain ⟨⟨rfl, hn0⟩, hrest⟩ := hch
    match fuel with
    | 0 => omega
    | fuel + 1 =>
      simp only [elfWalk]
      rw [if_neg hn0]
      by_cases hm : name = strtab (syms.getD s {}).st_name ∧ (syms.getD s {}).st_shndx ≠ 0
      · rw [if_pos hm]
        exact congrArg some (huniq s hm.1 hm.2)
      · rw [if_neg hm]
        refine ih (t.chain s) fuel i hrest ?_ hn hd
        simp only [List.length_cons] at hf
        omega

/-- Completeness of the linear `.symtab` scan: if a matching entry exists
and every matching entry carries value `v`, the scan returns `v`. -/
theorem linearScan_complete (strtab : Nat → List Nat) (name : List Nat) (v : Nat) :
    ∀ syms : List ElfSymEntry,
      (∃ sym ∈ syms, (elf_st_type sym.st_info = 2 ∨ elf_st_type sym.st_info = 1) ∧
        0 < sym.st_size ∧ sym.st_shndx ≠ 0 ∧ name = strtab sym.st_name) →
      (∀ sym ∈ syms, (elf_st_type sym.st_info = 2 ∨ elf_st_type sym.st_info = 1) →
        0 < sym.st_size → sym.st_shndx ≠ 0 → name = strtab sym.st_name →
        sym.st_value = v) →
      ((syms.findSome? fun sym =>
        let st := elf_st_type sym.st_info
        if (st = 2 ∨ st = 1) ∧ 0 < sym.st_size ∧ sym.st_shndx ≠ 0 ∧ name = strtab sym.st_name
        then some (sym.st_value, st, elf_st_bind sym.st_info) else none).map
          (fun r => r.1) = some v) := by
  intro syms
  induction syms with
  | nil =>
    rintro ⟨sym, hmem, _⟩
    exact absurd hmem (List.not_mem_nil sym)
  | cons q syms ih =>
    intro hex huniq
    rw [List.findSome?_cons]
    dsimp only
    by_cases hm : (elf_st_type q.st_info = 2 ∨ elf_st_type q.st_info = 1) ∧
        0 < q.st_size ∧ q.st_shndx ≠ 0 ∧ name = strtab q.st_name
    · rw [if_pos hm]
      simp only [Option.map_some]
      exact congrArg some (huniq q (by simp) hm.1 hm.2.1 hm.2.2.1 hm.2.2.2)
    · rw [if_neg hm]
      obtain ⟨sym, hmem, hcond⟩ := hex
      rcases List.mem_cons.1 hmem with rfl | hmem2
      · exact absurd hcond hm
      · exact ih ⟨sym, hmem2, hcond⟩ (fun s hs => huniq s (by simp [hs]))

/-- C4 (amended): for a name carried by a defined symbol that the linear
scan accepts (type `STT_FUNC`/`STT_OBJECT`, nonzero size), with
well-formed GNU and classic hash tables for that name and the name
determining a unique defined `st_value`, the GNU-hash lookup, the
ELF-hash lookup and the linear `.symtab` scan all return the same
offset `v`. -/
theorem hash_lookups_agree (img : ElfImg) (name : List Nat) (v : Nat)
    (t : GnuHashTab) (et : ElfHashTab) (syms : List ElfSymEntry)
    (strtab : Nat → List Nat) (stb : SymtabSec)
    (hgnu : img.gnu = some t) (hdyn : img.dynsym = some syms)
    (hstr : img.dynstr = some strtab) (hht : img.hashTab = some et)
    (hsym : img.symtab = some stb)
    (i : Nat)
    (hnb : t.nbucket ≠ 0)
    (hbloom : t.bloom ((gnuHashBytes name / 64) % t.bloom_size) &&&
        ((1 <<< (gnuHashBytes name % 64)) ||| (1 <<< ((gnuHashBytes name >>> t.shift2) % 64)))
      = ((1 <<< (gnuHashBytes name % 64)) ||| (1 <<< ((gnuHashBytes name >>> t.shift2) % 64))))
    (hstart : t.symndx ≤ t.bucket (gnuHashBytes name % t.nbucket))
    (hsi : t.bucket (gnuHashBytes name % t.nbucket) ≤ i)
    (hilen : i < syms.length)
    (hchain : ∀ k, t.bucket (gnuHashBytes name % t.nbucket) ≤ k → k < i →
      t.chain (k - t.symndx) &&& 1 = 0)
    (hhash : (t.chain (i - t.symndx) ^^^ gnuHashBytes name) >>> 1 = 0)
    (hname : name = strtab (syms.getD i {}).st_name)
    (hdef : (syms.getD i {}).st_shndx ≠ 0)
    (huniq : ∀ k, name = strtab (syms.getD k {}).st_name →
      (syms.getD k {}).st_shndx ≠ 0 → (syms.getD k {}).st_value = v)
    (enb : et.nbucket ≠ 0)
    (path : List Nat) (iE : Nat) (fuel : Nat)
    (hpath : chainHits et (et.bucket (elfHashBytes name % et.nbucket)) path iE = true)
    (hfuel : path.length < fuel)
    (hnameE : name = strtab (syms.getD iE {}).st_name)
    (hdefE : (syms.getD iE {}).st_shndx ≠ 0)
    (hexL : ∃ sym ∈ stb.syms, (elf_st_type sym.st_info = 2 ∨ elf_st_type sym.st_info = 1) ∧
      0 < sym.st_size ∧ sym.st_shndx ≠ 0 ∧ name = stb.strtab sym.st_name)
    (huniqL : ∀ sym ∈ stb.syms, (elf_st_type sym.st_info = 2 ∨ elf_st_type sym.st_info = 1) →
      0 < sym.st_size → sym.st_shndx ≠ 0 → name = stb.strtab sym.st_name →
      sym.st_value = v) :
    (gnuHashLookup img name (gnuHashBytes name)).map (fun r => r.1) = some v ∧
    (elfHashLookup img name (elfHashBytes name) fuel).map (fun r => r.1) = some v ∧
    (linearLookup img name).map (fun r => r.1) = some v := by
  refine ⟨?_, ?_, ?_⟩
  · unfold gnuHashLookup
    rw [hgnu, hdyn, hstr]
    dsimp only
    rw [if_neg hnb, if_neg (not_not_intro hbloom), if_neg (Nat.not_lt.2 hstart)]
    exact gnuWalk_complete t syms strtab name (gnuHashBytes name) i v hilen hhash hname hdef
      huniq _ _ hsi rfl hchain
  · unfold elfHashLookup
    rw [hht, hdyn, hstr]
    dsimp only
    rw [if_neg enb]
    exact elfWalk_complete et syms strtab name v huniq path _ fuel iE hpath hfuel hnameE hdefE
  · unfold linearLookup
    rw [hsym]
    dsimp only
    have hex2 := hexL
    obtain ⟨sym, hmem, _⟩ := hex2
    rw [if_neg (by intro h; rw [List.length_eq_zero] at h; rw [h] at hmem; simp at hmem)]
    exact linearScan_complete stb.strtab name v stb.syms hexL huniqL

/-- C4 (counterexample): in `exampleHashImg` the name `"a"` is an
exported, defined symbol (`st_shndx ≠ 0`) of type `STT_NOTYPE` and size
0; both hash lookups return its offset 4096, but the linear `.symtab`
scan — which only accepts `STT_FUNC`/`STT_OBJECT` entries of nonzero
size — returns nothing, so the three lookups do not agree on every
exported symbol. -/
theorem hash_lookups_agree_counterexample :
    ((exampleHashImg.dynsym.getD []).getD 1 {}).st_shndx ≠ 0 ∧
    (gnuHashLookup exampleHashImg [97] (gnuHashBytes [97])).map (fun r => r.1) = some 4096 ∧
    (elfHashLookup exampleHashImg [97] (elfHashBytes [97]) 8).map (fun r => r.1) = some 4096 ∧
    linearLookup exampleHashImg [97] = none := by
  refine ⟨by decide, by decide, by decide, by decide⟩

/-- Witness for C4 on `exampleHashImg2`, whose `"a"` is a global
`STT_FUNC` of size 4: all three lookups return offset 4096. -/
theorem hash_lookups_agree_witness :
    (gnuHashLookup exampleHashImg2 [97] (gnuHashBytes [97])).map (fun r => r.1) = some 4096 ∧
    (elfHashLookup exampleHashImg2 [97] (elfHashBytes [97]) 1).map (fun r => r.1) = some 4096 ∧
    (linearLookup exampleHashImg2 [97]).map (fun r => r.1) = some 4096 := by
  have huniq : ∀ k, [97] = (fun off => if off = 1 then [97] else ([] : List Nat))
      (([({} : ElfSymEntry),
         { st_name := 1, st_info := 0x12, st_shndx := 1, st_value := 4096,
           st_size := 4 }].getD k {}).st_name) →
      ([({} : ElfSymEntry),
        { st_name := 1, st_info := 0x12, st_shndx := 1, st_value := 4096,
          st_size := 4 }].getD k {}).st_shndx ≠ 0 →
      ([({} : ElfSymEntry),
        { st_name := 1, st_info := 0x12, st_shndx := 1, st_value := 4096,
          st_size := 4 }].getD k {}).st_value = 4096 := by
    intro k h1 h2
    match k with
    | 0 => exact absurd h1 (by decide)
    | 1 => rfl
    | n + 2 =>
      rw [List.getD_eq_default] at h1
      · exact absurd h1 (by decide)
      · simp
  exact hash_lookups_agree exampleHashImg2 [97] 4096
    { nbucket := 1, symndx := 1, bloom_size := 1, shift2 := 0,
      bloom := fun _ => M64 - 1, bucket := fun _ => 1, chain := fun _ => 177671 }
    { nbucket := 1, bucket := fun _ => 1, chain := fun _ => 0 }
    [{}, { st_name := 1, st_info := 0x12, st_shndx := 1, st_value := 4096, st_size := 4 }]
    (fun off => if off = 1 then [97] else [])
    { syms := [{ st_name := 1, st_info := 0x12, st_shndx := 1, st_value := 4096,
                 st_size := 4 }],
      strtab := fun off => if off = 1 then [97] else [] }
    rfl rfl rfl rfl rfl 1 (by decide) (by decide) (by decide) (by decide) (by decide)
    (fun k hk1 hk2 => absurd (lt_of_le_of_lt hk1 hk2) (by decide))
    (by decide) (by decide) (by decide) huniq
    (by decide) [] 1 1 (by decide) (by decide) (by decide) (by decide)
    ⟨{ st_name := 1, st_info := 0x12, st_shndx := 1, st_value := 4096, st_size := 4 },
      by decide, by decide, by decide, by decide, by decide⟩
    (by intro sym hs c1 c2 c3 c4
        have hq : sym = { st_name := 1, st_info := 0x12, st_shndx := 1,
                          st_value := 4096, st_size := 4 } := by simpa using hs
        rw [hq])

/-! ## Linker symbol scan lemmas (C1) -/

/-- Images without a hit are skipped without touching the scan state. -/
theorem scanImages_skip_none (fuel : Nat) (name : List Nat)
    (pre rest : List (ImgRef × ElfImg))
    (h : ∀ p ∈ pre, findSymbolAddress p.2 name fuel = none) (r w : SymbolLookup) :
    scanImages fuel name (pre ++ rest) r w = scanImages fuel name rest r w := by
  induction pre with
  | nil => rfl
  | cons q pre ih =>
    obtain ⟨qr, qi⟩ := q
    simp only [List.cons_append, scanImages]
    rw [h ⟨qr, qi⟩ (by simp)]
    exact ih fun p hp => h p (by simp [hp])

/-- A prefix without global hits only mutates the scan state: the scan
continues into the remaining images. -/
theorem scanImages_skip_nonglobal (fuel : Nat) (name : List Nat)
    (pre rest : List (ImgRef × ElfImg))
    (h : ∀ p ∈ pre, ∀ a b, findSymbolAddress p.2 name fuel = some (a, b) → b ≠ 1) :
    ∀ r w, ∃ r2 w2,
      scanImages fuel name (pre ++ rest) r w = scanImages fuel name rest r2 w2 := by
  induction pre with
  | nil => exact fun r w => ⟨r, w, rfl⟩
  | cons q pre ih =>
    obtain ⟨qr, qi⟩ := q
    intro r w
    simp only [List.cons_append, scanImages]
    rcases hq : findSymbolAddress qi name fuel with _ | ⟨a, b⟩
    · exact ih (fun p hp => h p (by simp [hp])) r w
    · have hb : b ≠ 1 := h ⟨qr, qi⟩ (by simp) a b hq
      dsimp only
      rw [if_neg hb]
      exact ih (fun p hp => h p (by simp [hp])) _ _

/-- If some image in the list yields a global hit, the scan returns early
with a global binding. -/
theorem scanImages_global_found (fuel : Nat) (name : List Nat)
    (l : List (ImgRef × ElfImg))
    (hex : ∃ p ∈ l, ∃ a, findSymbolAddress p.2 name fuel = some (a, 1)) :
    ∀ r w, ∃ res : SymbolLookup,
      scanImages fuel name l r w = .inl res ∧ res.bind = 1 := by
  induction l with
  | nil =>
    obtain ⟨p, hp, _⟩ := hex
    exact absurd hp (List.not_mem_nil p)
  | cons q l ih =>
    obtain ⟨qr, qi⟩ := q
    intro r w
    simp only [scanImages]
    rcases hq : findSymbolAddress qi name fuel with _ | ⟨a2, b2⟩
    · obtain ⟨p, hp, a, ha⟩ := hex
      rcases List.mem_cons.1 hp with rfl | hp2
      · dsimp only at ha
        rw [hq] at ha
        simp at ha
      · exact ih ⟨p, hp2, a, ha⟩ r w
    · dsimp only
      by_cases hb : b2 = 1
      · rw [if_pos hb]
        exact ⟨_, rfl, hb⟩
      · rw [if_neg hb]
        obtain ⟨p, hp, a, ha⟩ := hex
        rcases List.mem_cons.1 hp with rfl | hp2
        · dsimp only at ha
          rw [hq] at ha
          injection ha with h
          injection h with h1 h2
          exact absurd h2 hb
        · exact ih ⟨p, hp2, a, ha⟩ _ _

/-- Once a valid weak result is remembered, a tail of exclusively weak,
nonnull hits never overwrites it and never returns early; the running
`result` stays invalid-or-weak. -/
theorem scanImages_weak_keep (fuel : Nat) (name : List Nat)
    (l : List (ImgRef × ElfImg))
    (h : ∀ p ∈ l, ∀ a b, findSymbolAddress p.2 name fuel = some (a, b) → b = 2 ∧ a ≠ 0) :
    ∀ r w, w.valid = true → (r.valid = false ∨ r.isWeak = true) →
      ∃ r2, scanImages fuel name l r w = .inr (r2, w) ∧
        (r2.valid = false ∨ r2.isWeak = true) := by
  induction l with
  | nil => exact fun r w _ hr => ⟨r, rfl, hr⟩
  | cons q l ih =>
    obtain ⟨qr, qi⟩ := q
    intro r w hw hr
    simp only [scanImages]
    rcases hq : findSymbolAddress qi name fuel with _ | ⟨a, b⟩
    · exact ih (fun p hp => h p (by simp [hp])) r w hw hr
    · obtain ⟨hb2, ha0⟩ := h ⟨qr, qi⟩ (by simp) a b hq
      subst hb2
      dsimp only
      rw [if_neg (by norm_num)]
      rw [if_neg (by simp [hw])]
      refine ih (fun p hp => h p (by simp [hp])) _ w hw (Or.inr ?_)
      simp [SymbolLookup.isWeak]

/-- C1: `Linker::findSymbol` scans the main image first and then each
dependency in load order.  (1) The first `STB_GLOBAL` hit is returned
immediately, regardless of any earlier weak or local hits.  (2) Whenever
any loaded image yields a global hit, the result is global — so a global
definition beats weak ones in any load order.  (3) When every hit is weak
(and nonnull), the first-loaded weak definition is returned.  (4) When no
loaded image defines the name, `dlsym(RTLD_DEFAULT, name)` decides: a hit
binds as `STB_GLOBAL` with a null resolving image, a miss gives the
invalid lookup. -/
theorem findSymbol_resolution_order (lst : LinkerImages) (dl : List Nat → Nat)
    (fuel : Nat) (name : List Nat) :
    (∀ pre ref img post A,
      scanList lst = pre ++ (ref, img) :: post →
      (∀ p ∈ pre, ∀ a b, findSymbolAddress p.2 name fuel = some (a, b) → b ≠ 1) →
      findSymbolAddress img name fuel = some (A, 1) →
      findSymbol lst dl fuel name = { address := A, image := some ref, bind := 1 }) ∧
    ((∃ p ∈ scanList lst, ∃ a, findSymbolAddress p.2 name fuel = some (a, 1)) →
      (findSymbol lst dl fuel name).bind = 1) ∧
    (∀ pre ref img post A,
      scanList lst = pre ++ (ref, img) :: post →
      (∀ p ∈ pre, findSymbolAddress p.2 name fuel = none) →
      findSymbolAddress img name fuel = some (A, 2) → A ≠ 0 →
      (∀ p ∈ scanList lst, ∀ a b, findSymbolAddress p.2 name fuel = some (a, b) →
        b = 2 ∧ a ≠ 0) →
      findSymbol lst dl fuel name = { address := A, image := some ref, bind := 2 }) ∧
    ((∀ p ∈ scanList lst, findSymbolAddress p.2 name fuel = none) →
      (dl name ≠ 0 →
        findSymbol lst dl fuel name = { address := dl name, image := none, bind := 1 }) ∧
      (dl name = 0 → findSymbol lst dl fuel name = {})) := by
  refine ⟨?_, ?_, ?_, ?_⟩
  · intro pre ref img post A hdec hpre himg
    unfold findSymbol
    rw [hdec]
    obtain ⟨r2, w2, hskip⟩ :=
      scanImages_skip_nonglobal fuel name pre ((ref, img) :: post) hpre {} {}
    rw [hskip]
    simp only [scanImages]
    rw [himg]
    rfl
  · intro hex
    unfold findSymbol
    obtain ⟨res, hres, hb⟩ := scanImages_global_found fuel name (scanList lst) hex {} {}
    rw [hres]
    exact hb
  · intro pre ref img post A hdec hpre himg hA hall
    unfold findSymbol
    rw [hdec]
    rw [scanImages_skip_none fuel name pre _ hpre {} {}]
    simp only [scanImages]
    rw [himg]
    dsimp only
    rw [if_neg (show (2 : Nat) ≠ 1 by norm_num)]
    rw [if_pos (show (decide ((2 : Nat) = 2)
      && !SymbolLookup.valid {}) = true from by decide)]
    have hall2 : ∀ p ∈ post, ∀ a b, findSymbolAddress p.2 name fuel = some (a, b) →
        b = 2 ∧ a ≠ 0 := by
      intro p hp a b hab
      exact hall p (by rw [hdec]; simp [hp]) a b hab
    have hwv : SymbolLookup.valid { address := A, image := some ref, bind := 2 } = true := by
      simp [SymbolLookup.valid, hA]
    obtain ⟨r2, hrun, hr2⟩ := scanImages_weak_keep fuel name post hall2
      { address := A, image := some ref, bind := 2 }
      { address := A, image := some ref, bind := 2 }
      hwv (Or.inr (by simp [SymbolLookup.isWeak]))
    rw [hrun]
    dsimp only
    have hcond : (r2.valid && !r2.isWeak) ≠ true := by
      rcases hr2 with hr2 | hr2 <;> simp [hr2]
    rw [if_neg hcond, if_pos hwv]
  · intro hnone
    have hscan : scanImages fuel name (scanList lst) {} {}
        = scanImages fuel name ([] : List (ImgRef × ElfImg)) {} {} :=
      (List.append_nil (scanList lst)) ▸
        scanImages_skip_none fuel name (scanList lst) [] hnone {} {}
    constructor
    · intro hdl
      unfold findSymbol
      rw [hscan]
      simp only [scanImages]
      rw [if_neg (show ¬(SymbolLookup.valid {} && !SymbolLookup.isWeak {}) = true from
        by decide)]
      rw [if_neg (show ¬SymbolLookup.valid {} = true from by decide)]
      rw [if_pos hdl]
    · intro hdl
      unfold findSymbol
      rw [hscan]
      simp only [scanImages]
      rw [if_neg (show ¬(SymbolLookup.valid {} && !SymbolLookup.isWeak {}) = true from
        by decide)]
      rw [if_neg (show ¬SymbolLookup.valid {} = true from by decide)]
      rw [if_neg (not_not_intro hdl)]

/-- Witness for C1: a global beats a weak in either load order, two weaks
resolve to the first-loaded, and an empty image list falls back to the
host `dlsym` oracle with a null image. -/
theorem findSymbol_resolution_order_witness :
    findSymbol { main := some exampleGlobalImg, deps := [{ image := some exampleWeakImg }] }
        (fun _ => 0) 0 [97]
      = { address := 4352, image := some ImgRef.main, bind := 1 } ∧
    findSymbol { main := some exampleWeakImg, deps := [{ image := some exampleGlobalImg }] }
        (fun _ => 0) 0 [97]
      = { address := 4352, image := some (ImgRef.dep 0), bind := 1 } ∧
    findSymbol { main := some exampleWeakImg, deps := [{ image := some exampleWeakImg2 }] }
        (fun _ => 0) 0 [97]
      = { address := 8704, image := some ImgRef.main, bind := 2 } ∧
    findSymbol {} (fun n => if n = [97] then 57005 else 0) 0 [97]
      = { address := 57005, image := none, bind := 1 } := by
  refine ⟨?_, ?_, ?_, ?_⟩
  · exact (findSymbol_resolution_order
      { main := some exampleGlobalImg, deps := [{ image := some exampleWeakImg }] }
      (fun _ => 0) 0 [97]).1 [] ImgRef.main exampleGlobalImg
      [(ImgRef.dep 0, exampleWeakImg)] 4352 rfl
      (fun p hp => absurd hp (List.not_mem_nil p)) rfl
  · refine (findSymbol_resolution_order
      { main := some exampleWeakImg, deps := [{ image := some exampleGlobalImg }] }
      (fun _ => 0) 0 [97]).1 [(ImgRef.main, exampleWeakImg)] (ImgRef.dep 0)
      exampleGlobalImg [] 4352 rfl ?_ rfl
    intro p hp a b hab
    have hpp := List.mem_singleton.1 hp
    subst hpp
    dsimp only at hab
    rw [show findSymbolAddress exampleWeakImg [97] 0 = some (8704, 2) from rfl] at hab
    injection hab with h
    injection h with h1 h2
    omega
  · refine (findSymbol_resolution_order
      { main := some exampleWeakImg, deps := [{ image := some exampleWeakImg2 }] }
      (fun _ => 0) 0 [97]).2.2.1 [] ImgRef.main exampleWeakImg
      [(ImgRef.dep 0, exampleWeakImg2)] 8704 rfl
      (fun p hp => absurd hp (List.not_mem_nil p)) rfl (by norm_num) ?_
    intro p hp a b hab
    rcases List.mem_cons.1 hp with rfl | hp2
    · dsimp only at hab
      rw [show findSymbolAddress exampleWeakImg [97] 0 = some (8704, 2) from rfl] at hab
      injection hab with h
      injection h with h1 h2
      omega
    · have hpp := List.mem_singleton.1 hp2
      subst hpp
      dsimp only at hab
      rw [show findSymbolAddress exampleWeakImg2 [97] 0 = some (13056, 2) from rfl] at hab
      injection hab with h
      injection h with h1 h2
      omega
  · exact ((findSymbol_resolution_order {} (fun n => if n = [97] then 57005 else 0) 0
      [97]).2.2.2 (fun p hp => absurd hp (List.not_mem_nil p))).1 (by norm_num)

/-! ## Unresolved symbolic relocations (C5) -/

/-- When no loaded image resolves a name and the host `dlsym` oracle
returns null, `Linker::findSymbol` yields the invalid lookup. -/
theorem findSymbol_unresolved (lst : LinkerImages) (dl : List Nat → Nat)
    (fuel : Nat) (name : List Nat)
    (hscan : ∀ p ∈ scanList lst, findSymbolAddress p.2 name fuel = none)
    (hdl : dl name = 0) :
    findSymbol lst dl fuel name = {} := by
  unfold findSymbol
  have hrun : scanImages fuel name (scanList lst) {} {}
      = scanImages fuel name ([] : List (ImgRef × ElfImg)) {} {} :=
    (List.append_nil (scanList lst)) ▸
      scanImages_skip_none fuel name (scanList lst) [] hscan {} {}
  rw [hrun]
  simp only [scanImages]
  rw [if_neg (show ¬(SymbolLookup.valid {} && !SymbolLookup.isWeak {}) = true from by decide)]
  rw [if_neg (show ¬SymbolLookup.valid {} = true from by decide)]
  rw [if_neg (not_not_intro hdl)]

/-- Under the same failure conditions, with a cache that holds no positive
entry for the name, the cached lookup's result is invalid. -/
theorem findSymbolCached_unresolved (lst : LinkerImages) (dl : List Nat → Nat)
    (fuel : Nat) (cache : SymCache) (name : List Nat)
    (hscan : ∀ p ∈ scanList lst, findSymbolAddress p.2 name fuel = none)
    (hdl : dl name = 0)
    (hcache : ∀ e, cacheFind cache name = some e → e.found = false) :
    (findSymbolCached lst dl fuel cache name).1.valid = false := by
  unfold findSymbolCached
  rcases hc : cacheFind cache name with _ | e
  · dsimp only
    rw [findSymbol_unresolved lst dl fuel name hscan hdl]
    rfl
  · dsimp only
    rw [hcache e hc]
    rfl

/-- C5: a symbolic relocation (`GLOB_DAT`, `ABS64`, `JUMP_SLOT`,
`TLS_DTPMOD`, `TLS_DTPREL`, `TLS_TPREL`, `TLSDESC`) whose symbol no
loaded image resolves and whose host `dlsym` fallback returns null is
skipped: only the symbol cache changes — memory (so the word at
`load_bias + r_offset`), the TLS registry, the thread slot and the
`TlsIndex` list are untouched — the RELA loop continues with the
remaining entries, and `link()` still reports success. -/
theorem unresolved_symbol_skipped (env : RelocEnv) (st : RelocState)
    (sym_idx ty offset addend load_bias : Nat)
    (dynsym : List ElfSymEntry) (dynstr : Nat → List Nat) (is_rela : Bool)
    (hty : ty = 1025 ∨ ty = 257 ∨ ty = 1026 ∨ ty = 1028 ∨ ty = 1029 ∨ ty = 1030 ∨ ty = 1031)
    (hscan : ∀ p ∈ scanList env.lst,
      findSymbolAddress p.2 (dynstr (dynsym.getD sym_idx {}).st_name) env.fuel = none)
    (hdl : env.dlsymOracle (dynstr (dynsym.getD sym_idx {}).st_name) = 0)
    (hcache : ∀ e, cacheFind st.cache (dynstr (dynsym.getD sym_idx {}).st_name) = some e →
      e.found = false) :
    (processRelocation env st sym_idx ty offset addend load_bias dynsym dynstr is_rela
      = { st with cache := (findSymbolCached env.lst env.dlsymOracle env.fuel st.cache
            (dynstr (dynsym.getD sym_idx {}).st_name)).2 }) ∧
    (∀ (e : RelaEntry) (rest : List RelaEntry),
      e.r_info >>> 32 = sym_idx → e.r_info &&& 0xffffffff = ty →
      e.r_offset = offset → e.r_addend = addend →
      processRelaList env load_bias dynsym dynstr (e :: rest) st
        = processRelaList env load_bias dynsym dynstr rest
            (processRelocation env st sym_idx ty offset addend load_bias dynsym dynstr true)) ∧
    (∀ jobs, (linkResult true env jobs st).1 = true) := by
  have hsym : (findSymbolCached env.lst env.dlsymOracle env.fuel st.cache
      (dynstr (dynsym.getD sym_idx {}).st_name)).1.valid = false :=
    findSymbolCached_unresolved env.lst env.dlsymOracle env.fuel st.cache
      (dynstr (dynsym.getD sym_idx {}).st_name) hscan hdl hcache
  refine ⟨?_, ?_, ?_⟩
  · rcases hty with rfl | rfl | rfl | rfl | rfl | rfl | rfl <;>
    · simp only [processRelocation]
      rw [if_neg (by decide), if_neg (by decide), if_neg (by decide), if_neg (by decide),
        if_pos (by decide)]
      rw [if_pos (show (!(findSymbolCached env.lst env.dlsymOracle env.fuel st.cache
        (dynstr (dynsym.getD sym_idx {}).st_name)).1.valid) = true from by rw [hsym]; rfl)]
  · intro e rest h1 h2 h3 h4
    simp only [processRelaList, List.foldl_cons]
    rw [h1, h2, h3, h4]
  · intro jobs
    rfl

/-- Witness for C5: an empty linker, a null `dlsym` oracle and an empty
cache leave a `GLOB_DAT` relocation's state all but cache-identical, the
loop continues, and `link` reports success. -/
theorem unresolved_symbol_skipped_witness :
    (processRelocation {} {} 0 1025 0 0 0 [] (fun _ => []) true
      = { ({} : RelocState) with cache := (findSymbolCached {} (fun _ => 0) 0 []
            ((fun _ => ([] : List Nat)) (([] : List ElfSymEntry).getD 0 {}).st_name)).2 }) ∧
    (∀ (e : RelaEntry) (rest : List RelaEntry),
      e.r_info >>> 32 = 0 → e.r_info &&& 0xffffffff = 1025 →
      e.r_offset = 0 → e.r_addend = 0 →
      processRelaList {} 0 [] (fun _ => []) (e :: rest) {}
        = processRelaList {} 0 [] (fun _ => []) rest
            (processRelocation {} {} 0 1025 0 0 0 [] (fun _ => []) true)) ∧
    (∀ jobs, (linkResult true {} jobs {}).1 = true) :=
  unresolved_symbol_skipped {} {} 0 1025 0 0 0 [] (fun _ => []) true
    (Or.inl rfl)
    (by intro p hp; simp [scanList] at hp)
    rfl
    (by intro e h; simp [cacheFind] at h)

end SoLoad

